import Mathlib

/-!
Verification development for the deadline-escalation and notification-rendering
pipeline of a personal task manager (backend/app/services/reminders.py and
backend/app/services/notification_render.py, with the storage schema of
alembic/versions/20260120_2332-001_initial_schema.py).

The embedding is shallow:
* calendar dates are integers (days); instants are a (day, second-of-day) pair
  in the configured timezone; `due_time` is a second-of-day;
* the three mutable tables (notification_events, notification_deliveries,
  messages) are Lean lists kept in insertion order, which models the
  `created_at`-ascending order used by the renderer's fetch;
* the text-generation backend (`call_llm_json`) is an oracle indexed by the
  position of the call inside one invocation: it either returns a parsed JSON
  object (modelled by its optional `text` field), raises `LLMAPIError`, or
  raises some other exception (e.g. `RetryableError`);
* storage errors inside one event's savepoint are modelled by a second oracle
  giving, per event position, the optional `SQLAlchemyError` message; a failing
  savepoint rolls its partial writes back, after which the loop's error branch
  marks the event failed (that best-effort write itself is modelled as
  succeeding);
* `str.strip()` and the slice `s[:500]` are modelled on the character list of
  the string (`pyStrip`, `pySlice`);
* the scanner's `INSERT ... ON CONFLICT (task_id, stage) DO NOTHING` is
  modelled together with PostgreSQL's arbiter inference over the table's
  unique indexes: the only unique index on (task_id, stage) is the partial
  index ix_notification_events_task_stage_unique, and the statement names no
  index predicate, so no arbiter is inferable and execution raises
  ProgrammingError 42P10 before touching any row; the storage engine's own
  enforcement of the partial unique index on plain inserts is modelled by
  `insertEventRow`;
* a transaction is a pair of a durable store and a session store; `commit`
  copies the session onto the durable part.  The services only call commit
  where the Python code does.
-/

namespace MOS

/-- A timezone-aware instant: local calendar day (as an integer day number)
and local second-of-day.  `datetime.now(tz)` of the services. -/
structure Instant where
  day : Int
  sec : Int
deriving Repr, DecidableEq

/-- Snapshot of a task row as read by the scanner (models.task.Task). -/
structure Task where
  id : Nat
  title : String
  description : String
  status : String
  priority : String
  due_date : Option Int
  due_time : Option Int
deriving Repr, DecidableEq

/-- reminders.py: STAGES_DATE_ONLY (threshold in days). -/
def STAGES_DATE_ONLY : List (String × Int) :=
  [("D-7", 7), ("D-3", 3), ("D-1", 1), ("D-0", 0)]

/-- reminders.py: STAGES_TIME_ONLY (threshold in seconds:
timedelta(hours=2) and timedelta(minutes=30)). -/
def STAGES_TIME_ONLY : List (String × Int) :=
  [("T-2H", 7200), ("T-30M", 1800)]

/-- reminders.py line 72: the fixed urgency order used as sort key
(`order.get(s, 999)`). -/
def stageOrder (s : String) : Nat :=
  if s = "OVERDUE" then 0
  else if s = "T-30M" then 1
  else if s = "T-2H" then 2
  else if s = "D-0" then 3
  else if s = "D-1" then 4
  else if s = "D-3" then 5
  else if s = "D-7" then 6
  else 999

/-- Insert a label into a list already sorted by `stageOrder`, before any
element of equal key (so that the overall sort is stable). -/
def insertSorted (a : String) : List String → List String
  | [] => [a]
  | b :: l => if stageOrder b < stageOrder a then b :: insertSorted a l
              else a :: b :: l

/-- `stages.sort(key=lambda s: order.get(s, 999))` — a stable sort by
`stageOrder`. -/
def sortStages (l : List String) : List String :=
  l.foldr insertSorted []

/-- Python `str.strip()`: drop leading and trailing whitespace, modelled on
the character list. -/
def pyStrip (s : String) : String :=
  String.mk (((s.data.dropWhile Char.isWhitespace).reverse.dropWhile
    Char.isWhitespace).reverse)

/-- Python slice `s[:n]` (by code point). -/
def pySlice (s : String) (n : Nat) : String :=
  String.mk (s.data.take n)

/-- reminders.py `_compute_stages_for_task`: the Stage Evaluator. -/
def compute_stages_for_task (t : Task) (now : Instant) : List String :=
  if t.status = "done" ∨ t.status = "canceled" then []
  else
    match t.due_date with
    | none => []
    | some dd =>
      let today := now.day
      let days_left : Int := dd - today
      -- overdue (date-based)
      if dd < today then ["OVERDUE"]
      else
        let stages :=
          STAGES_DATE_ONLY.filterMap
            (fun p => if days_left = p.2 then some p.1 else none)
        -- time-based (only if due_time exists and due is today)
        match t.due_time with
        | some tt =>
          if dd = today then
            let delta : Int := tt - now.sec
            -- overdue (time-based)
            if delta < 0 then ["OVERDUE"]
            else
              sortStages (stages ++
                STAGES_TIME_ONLY.filterMap
                  (fun p => if delta ≤ p.2 then some p.1 else none))
          else sortStages stages
        | none => sortStages stages

/-- Payload snapshot of the task inside a deadline-reminder event
(the `"task"` sub-dictionary built by the scanner). -/
structure PayloadTask where
  id : Nat
  title : String
  description : String
  status : String
  priority : String
  due_date : Option Int
  due_time : Option Int
deriving Repr, DecidableEq

/-- The payload dictionary built by the scanner for a deadline-reminder
event. -/
structure Payload where
  kind : String
  stage : String
  now : Instant
  task : PayloadTask
deriving Repr, DecidableEq

/-- A row of notification_events.  The list position in the store models the
`created_at` order; deadline payloads are structured, payloads of other kinds
(followup_summary) are irrelevant here and modelled as `none`. -/
structure Event where
  id : Nat
  kind : String
  task_id : Option Nat
  stage : Option String
  slot : Option String
  payload : Option Payload
  rendered_text : Option String
  status : String
  rendered_at : Option Instant
deriving Repr, DecidableEq

/-- A row of notification_deliveries as inserted by the renderer. -/
structure Delivery where
  event_id : Nat
  channel : String
  status : String
  sent_at : Instant
deriving Repr, DecidableEq

/-- A row of messages as inserted by the renderer (the feed entry). -/
structure Msg where
  role : String
  content : String
  event_id : Option Nat
deriving Repr, DecidableEq

/-- The shared store: the three tables touched by the pipeline. -/
structure DB where
  events : List Event
  deliveries : List Delivery
  messages : List Msg
deriving Repr, DecidableEq

/-- Errors raised by the storage layer while executing a statement. -/
inductive DbError where
  /-- ProgrammingError, SQLSTATE 42P10: "there is no unique or exclusion
  constraint matching the ON CONFLICT specification". -/
  | noMatchingConflictTarget
  /-- IntegrityError: a unique index rejected the inserted row. -/
  | uniqueViolation
deriving Repr, DecidableEq

/-- A unique index of the notification_events table: its key columns and,
for a partial index, its row predicate. -/
structure UniqueIndex where
  columns : List String
  predicate : Option (Event → Bool)

/-- The row predicate of ix_notification_events_task_stage_unique
(migration 001 lines 78-84): kind = 'task_deadline_reminder' AND task_id IS
NOT NULL AND stage IS NOT NULL. -/
def deadlineIndexRow (e : Event) : Bool :=
  e.kind == "task_deadline_reminder" && e.task_id.isSome && e.stage.isSome

/-- ix_notification_events_task_stage_unique: UNIQUE (task_id, stage) WHERE
`deadlineIndexRow` — a partial unique index. -/
def ixTaskStageUnique : UniqueIndex :=
  { columns := ["task_id", "stage"], predicate := some deadlineIndexRow }

/-- The unique indexes the migration creates on notification_events (the
primary key aside; uuid4 ids never collide). -/
def eventsUniqueIndexes : List UniqueIndex := [ixTaskStageUnique]

/-- PostgreSQL arbiter inference for `ON CONFLICT (columns) DO NOTHING`
when the statement supplies no index predicate: only a non-partial unique
index on exactly those columns qualifies — a partial unique index can be
inferred only when the conflict target also carries a predicate implying
the index's, and reminders.py supplies none. -/
def inferArbiter (cols : List String) : Option UniqueIndex :=
  eventsUniqueIndexes.find? (fun ix =>
    ix.columns == cols && ix.predicate.isNone)

/-- Entries of the partial unique index matching (tid, stage): the
DO NOTHING check the statement performs when an arbiter index is
inferable. -/
def deadlineConflict (store : List Event) (tid : Nat) (stage : String) : Bool :=
  store.any (fun e =>
    e.kind == "task_deadline_reminder" && e.task_id == some tid &&
      e.stage == some stage)

/-- A fresh primary key for an inserted row (uuid4 in the source: always new,
never colliding with an existing row). -/
def freshId (store : List Event) : Nat :=
  store.foldr (fun e m => max (e.id + 1) m) 0

/-- reminders.py lines 121-135 as executed by the storage layer:
`INSERT ... ON CONFLICT (task_id, stage) DO NOTHING RETURNING id`.
When an arbiter index can be inferred for the conflict target, the insert
is a silent no-op returning no id on conflict and an insert returning the
new id otherwise.  When no arbiter is inferable the statement raises
ProgrammingError 42P10 before touching any row — which is what happens for
this statement, because the only unique index on (task_id, stage) is the
partial index and the conflict target names no index predicate. -/
def insertIgnoreDeadline (store : List Event) (tid : Nat) (stage : String)
    (payload : Payload) : Except DbError (Option Nat × List Event) :=
  match inferArbiter ["task_id", "stage"] with
  | none => .error .noMatchingConflictTarget
  | some _ =>
    if deadlineConflict store tid stage then .ok (none, store)
    else
      let e : Event :=
        { id := freshId store, kind := "task_deadline_reminder",
          task_id := some tid, stage := some stage, slot := none,
          payload := some payload, rendered_text := none, status := "created",
          rendered_at := none }
      .ok (some e.id, store ++ [e])

/-- The payload snapshot built by the scanner for one (task, stage) pair. -/
def mkPayload (t : Task) (now : Instant) (stage : String) : Payload :=
  { kind := "task_deadline_reminder", stage := stage, now := now,
    task := { id := t.id, title := t.title, description := t.description,
              status := t.status, priority := t.priority,
              due_date := t.due_date, due_time := t.due_time } }

/-- The inner loop of `scan_deadline_reminders` over one task's candidate
stages: `if created >= limit_new_events: break`, then the insert statement
(counting only genuinely new rows); a storage error propagates and aborts
the scan (there is no try/except in the service). -/
def scanStages (t : Task) (now : Instant) (limit : Nat) :
    List String → Nat → List Event → Except DbError (Nat × List Event)
  | [], created, store => .ok (created, store)
  | stage :: rest, created, store =>
    if limit ≤ created then .ok (created, store)
    else
      match insertIgnoreDeadline store t.id stage (mkPayload t now stage) with
      | .error e => .error e
      | .ok r =>
        scanStages t now limit rest
          (if r.1.isSome then created + 1 else created) r.2

/-- The outer loop of `scan_deadline_reminders` over the fetched tasks;
a storage error propagates. -/
def scanTasks (now : Instant) (limit : Nat) :
    List Task → Nat → List Event → Except DbError (Nat × List Event)
  | [], created, store => .ok (created, store)
  | t :: ts, created, store =>
    match scanStages t now limit (compute_stages_for_task t now)
        created store with
    | .error e => .error e
    | .ok r => scanTasks now limit ts r.1 r.2

/-- reminders.py `scan_deadline_reminders`: `tasks` is the fetched candidate
list (non-null due date, non-terminal status, due_date ascending, ≤ 200
rows).  Returns the invocation's outcome — the created count, or the
storage error the uncaught exception carries out of the function — together
with the durable store after the invocation: the session is committed only
when the run succeeded with at least one created event; a raised error or a
no-op run leaves the durable store unchanged. -/
def scan_deadline_reminders (tasks : List Task) (now : Instant) (limit : Nat)
    (db : List Event) : Except DbError Nat × List Event :=
  match scanTasks now limit tasks 0 db with
  | .error e => (.error e, db)
  | .ok r => (.ok r.1, if 0 < r.1 then r.2 else db)

/-- Whether inserting `e` would violate
ix_notification_events_task_stage_unique: the row falls under the index
predicate and an existing row under the predicate has the same
(task_id, stage). -/
def violatesTaskStageIndex (store : List Event) (e : Event) : Bool :=
  deadlineIndexRow e && store.any (fun x =>
    deadlineIndexRow x && x.task_id == e.task_id && x.stage == e.stage)

/-- A plain row insert as checked by the storage engine against the partial
unique index: a violating row is rejected with a unique violation,
regardless of what the issuing application checked beforehand. -/
def insertEventRow (store : List Event) (e : Event) :
    Except DbError (List Event) :=
  if violatesTaskStageIndex store e then .error .uniqueViolation
  else .ok (store ++ [e])

/-- One atomic insert attempt of an event row.  An arbitrary interleaving of
racing clients is a sequence of these: each attempt either commits its row
or is rejected by the index and leaves the store unchanged. -/
def applyInsertAttempt (store : List Event) (e : Event) : List Event :=
  match insertEventRow store e with
  | .error _ => store
  | .ok s' => s'

/-- Result of one `call_llm_json` invocation, as observed by the renderer:
a parsed JSON object with an optional `text` field, a raised `LLMAPIError`,
or some other raised exception (e.g. `RetryableError`), carrying `str(e)`. -/
inductive LLMCall where
  | reply (textField : Option String)
  | raiseApi (msg : String)
  | raiseOther (msg : String)
deriving Repr, DecidableEq

/-- Whether `_render_event_text` recognises the event kind (and therefore
reaches the backend call). -/
def knownKind (ev : Event) : Bool :=
  ev.kind == "task_deadline_reminder" || ev.kind == "followup_summary"

/-- Exceptions escaping `_render_event_text`. -/
inductive RenderExn where
  | llmApi (msg : String)
  | valueErr (msg : String)
deriving Repr, DecidableEq

/-- notification_render.py `_render_event_text`: select the prompt by kind,
call the backend, require a non-empty stripped `text` field; unknown kinds
raise ValueError before any backend call.  The Bool records whether the
backend was invoked. -/
def render_event_text (ev : Event) (call : LLMCall) :
    Except RenderExn String × Bool :=
  if knownKind ev then
    match call with
    | .reply tf =>
      let text := pyStrip (tf.getD "")
      if text == "" then (.error (.valueErr "Empty text in LLM response"), true)
      else (.ok text, true)
    | .raiseApi m => (.error (.llmApi m), true)
    | .raiseOther m => (.error (.valueErr m), true)
  else (.error (.valueErr ("Unknown event kind: " ++ ev.kind)), false)

/-- `UPDATE notification_events SET status='failed', rendered_text=msg
WHERE id = id`. -/
def markFailed (events : List Event) (id : Nat) (msg : String) : List Event :=
  events.map (fun e =>
    if e.id == id then { e with status := "failed", rendered_text := some msg }
    else e)

/-- `UPDATE notification_events SET status='rendered', rendered_text=text,
rendered_at=now WHERE id = id`. -/
def markRendered (events : List Event) (id : Nat) (text : String)
    (now : Instant) : List Event :=
  events.map (fun e =>
    if e.id == id then
      { e with
          status := "rendered", rendered_text := some text,
          rendered_at := some now }
    else e)

/-- The body of the renderer's per-event loop iteration (savepoint, render,
project, and the three error branches).  `wf` is the optional
`SQLAlchemyError` raised by this event's unit-of-work writes; when it fires,
the savepoint rolls the partial writes back and the event is marked failed
with a message truncated to 500 characters.  Returns the new session store,
whether the event was counted as processed, and whether the backend was
called. -/
def renderEventStep (now : Instant) (ev : Event) (call : LLMCall)
    (wf : Option String) (db : DB) : DB × Bool × Bool :=
  match render_event_text ev call with
  | (.ok text, called) =>
    if text == "" then
      -- `if not text: raise ValueError("Empty rendered text")` — lands in the
      -- generic except-branch (unreachable: text is non-empty here)
      (⟨markFailed db.events ev.id
          (pySlice ("Unexpected error: " ++ "Empty rendered text") 500),
        db.deliveries, db.messages⟩, false, called)
    else
      match wf with
      | some m =>
        -- except SQLAlchemyError: savepoint rolled back, then
        -- status='failed', rendered_text=error_msg[:500]
        (⟨markFailed db.events ev.id (pySlice ("Database error: " ++ m) 500),
          db.deliveries, db.messages⟩, false, called)
      | none =>
        -- success: update the event, insert the delivery, project the message
        (⟨markRendered db.events ev.id text now,
          db.deliveries ++ [⟨ev.id, "in_app", "sent", now⟩],
          db.messages ++ [⟨"assistant", text, some ev.id⟩]⟩, true, called)
  | (.error (.llmApi m), called) =>
    -- except LLMAPIError: status='failed', rendered_text=f"LLM error: {m}"
    -- (note: no truncation in this branch)
    (⟨markFailed db.events ev.id ("LLM error: " ++ m),
      db.deliveries, db.messages⟩, false, called)
  | (.error (.valueErr m), called) =>
    -- except Exception: status='failed', rendered_text=error_msg[:500]
    (⟨markFailed db.events ev.id (pySlice ("Unexpected error: " ++ m) 500),
      db.deliveries, db.messages⟩, false, called)

/-- A transaction: the durable store and the in-session store. -/
structure Tx where
  durable : DB
  session : DB
deriving Repr, DecidableEq

/-- `db.commit()`: the session becomes durable. -/
def txCommit (s : Tx) : Tx :=
  { s with durable := s.session }

/-- The renderer's loop over the fetched batch (all writes stay in the
session; the loop contains no commit).  Returns the final transaction state,
the processed (success) count and the backend call count. -/
def renderLoop (now : Instant) (llm : Nat → LLMCall)
    (wf : Nat → Option String) :
    List Event → Nat → Tx → Tx × Nat × Nat
  | [], _, s => (s, 0, 0)
  | ev :: rest, i, s =>
    let r := renderEventStep now ev (llm i) (wf i) s.session
    let k := renderLoop now llm wf rest (i + 1) { s with session := r.1 }
    (k.1, (if r.2.1 then 1 else 0) + k.2.1, (if r.2.2 then 1 else 0) + k.2.2)

/-- The renderer's batch fetch: events with status='created', oldest
`created_at` first (list order), limited to `batch` rows. -/
def fetchCreated (db : DB) (batch : Nat) : List Event :=
  (db.events.filter (fun e => e.status == "created")).take batch

/-- notification_render.py `render_and_project_in_app`: fetch the batch, run
the per-event loop inside one transaction, commit once at the end; returns the
success count and the durable store after the commit. -/
def render_and_project_in_app (db : DB) (batch : Nat) (now : Instant)
    (llm : Nat → LLMCall) (wf : Nat → Option String) : Nat × DB :=
  let fetched := fetchCreated db batch
  let r := renderLoop now llm wf fetched 0 ⟨db, db⟩
  (r.2.1, (txCommit r.1).durable)

/-- Number of backend calls made by one renderer invocation. -/
def renderCalls (db : DB) (batch : Nat) (now : Instant)
    (llm : Nat → LLMCall) (wf : Nat → Option String) : Nat :=
  (renderLoop now llm wf (fetchCreated db batch) 0 ⟨db, db⟩).2.2

/-- The durable store observed if the renderer's process dies after fully
processing `k` events of the batch and before the final commit. -/
def renderCrashDurable (db : DB) (batch : Nat) (now : Instant)
    (llm : Nat → LLMCall) (wf : Nat → Option String) (k : Nat) : DB :=
  (renderLoop now llm wf ((fetchCreated db batch).take k) 0 ⟨db, db⟩).1.durable

/-- Whether one event's loop iteration succeeds (reaches the success writes):
known kind, backend replied, stripped text non-empty, and its unit-of-work
writes do not raise. -/
def evOk (ev : Event) (call : LLMCall) (wf : Option String) : Bool :=
  knownKind ev &&
    (match call with
     | .reply tf => !(pyStrip (tf.getD "") == "")
     | _ => false) &&
    wf == none

/-- The stripped text of a successful backend reply. -/
def llmText (call : LLMCall) : String :=
  match call with
  | .reply tf => pyStrip (tf.getD "")
  | _ => ""

/-- The error description stored in rendered_text by the failure branches. -/
def evFailMsg (ev : Event) (call : LLMCall) (wf : Option String) : String :=
  if knownKind ev then
    match call with
    | .raiseApi m => "LLM error: " ++ m
    | .raiseOther m => pySlice ("Unexpected error: " ++ m) 500
    | .reply tf =>
      if pyStrip (tf.getD "") == "" then
        pySlice ("Unexpected error: " ++ "Empty text in LLM response") 500
      else
        match wf with
        | some m => pySlice ("Database error: " ++ m) 500
        | none => ""
  else pySlice ("Unexpected error: " ++ ("Unknown event kind: " ++ ev.kind)) 500

/-- The events-table effect of one loop iteration, abstracted from
`renderEventStep`. -/
def stepEvents (now : Instant) (ev : Event) (call : LLMCall)
    (wf : Option String) (evs : List Event) : List Event :=
  if evOk ev call wf then markRendered evs ev.id (llmText call) now
  else markFailed evs ev.id (evFailMsg ev call wf)

/-- The events-table effect of the whole loop. -/
def applyEvOutcomes (now : Instant) (llm : Nat → LLMCall)
    (wf : Nat → Option String) : List Event → Nat → List Event → List Event
  | [], _, evs => evs
  | ev :: rest, i, evs =>
    applyEvOutcomes now llm wf rest (i + 1) (stepEvents now ev (llm i) (wf i) evs)

/-- The delivery rows appended by the loop, in order. -/
def delsOf (now : Instant) (llm : Nat → LLMCall) (wf : Nat → Option String) :
    List Event → Nat → List Delivery
  | [], _ => []
  | ev :: rest, i =>
    (if evOk ev (llm i) (wf i) then
      [⟨ev.id, "in_app", "sent", now⟩] else []) ++ delsOf now llm wf rest (i + 1)

/-- The feed rows appended by the loop, in order. -/
def msgsOf (now : Instant) (llm : Nat → LLMCall) (wf : Nat → Option String) :
    List Event → Nat → List Msg
  | [], _ => []
  | ev :: rest, i =>
    (if evOk ev (llm i) (wf i) then
      [⟨"assistant", llmText (llm i), some ev.id⟩] else []) ++
      msgsOf now llm wf rest (i + 1)

/-- The per-row update a loop iteration performs on its event. -/
def updFor (now : Instant) (ev : Event) (call : LLMCall) (w : Option String)
    (e : Event) : Event :=
  if evOk ev call w then
    { e with
        status := "rendered", rendered_text := some (llmText call),
        rendered_at := some now }
  else
    { e with status := "failed", rendered_text := some (evFailMsg ev call w) }

/-- Number of loop iterations that succeed. -/
def okCount (llm : Nat → LLMCall) (wf : Nat → Option String) :
    List Event → Nat → Nat
  | [], _ => 0
  | ev :: rest, i =>
    (if evOk ev (llm i) (wf i) then 1 else 0) + okCount llm wf rest (i + 1)

/-- Number of events of a recognised kind (= number of backend calls). -/
def knownCount : List Event → Nat
  | [] => 0
  | ev :: rest => (if knownKind ev then 1 else 0) + knownCount rest

/-- Status of the row with the given primary key. -/
def statusIn (evs : List Event) (id : Nat) : Option String :=
  (evs.find? (fun e => e.id == id)).map (fun e => e.status)

/-- rendered_text of the row with the given primary key. -/
def renderedTextIn (evs : List Event) (id : Nat) : Option (Option String) :=
  (evs.find? (fun e => e.id == id)).map (fun e => e.rendered_text)

/-- Status of an event row in the store. -/
def eventStatus (db : DB) (id : Nat) : Option String :=
  statusIn db.events id

/-- One invocation of the core: a scan (with its fetched candidate tasks,
clock instant and cap) or a render (with its batch size, clock instant and
oracles). -/
inductive Op where
  | scan (tasks : List Task) (now : Instant) (limit : Nat)
  | render (batch : Nat) (now : Instant) (llm : Nat → LLMCall)
      (wf : Nat → Option String)

/-- Apply one invocation to the durable store. -/
def applyOp (db : DB) : Op → DB
  | .scan tasks now limit =>
    { db with events := (scan_deadline_reminders tasks now limit db.events).2 }
  | .render batch now llm wf =>
    (render_and_project_in_app db batch now llm wf).2

/-- Apply a sequence of invocations. -/
def applyOps (db : DB) : List Op → DB
  | [] => db
  | o :: rest => applyOps (applyOp db o) rest

/-- Primary keys of the event rows are pairwise distinct. -/
def idsNodup (events : List Event) : Prop :=
  (events.map (fun e => e.id)).Nodup

instance (events : List Event) : Decidable (idsNodup events) := by
  unfold idsNodup; infer_instance

/-- Two rows clash on the partial unique index: both of deadline kind, the
first with non-null task reference and stage, and equal (task_id, stage). -/
def deadlinePairClash (a b : Event) : Prop :=
  a.kind = "task_deadline_reminder" ∧ b.kind = "task_deadline_reminder" ∧
    a.task_id ≠ none ∧ a.stage ≠ none ∧ a.task_id = b.task_id ∧
    a.stage = b.stage

instance (a b : Event) : Decidable (deadlinePairClash a b) := by
  unfold deadlinePairClash; infer_instance

/-- The event-store invariant enforced by
ix_notification_events_task_stage_unique: among events of kind
task_deadline_reminder with non-null task reference and stage, the
(task_id, stage) pair is unique. -/
def uniqueDeadlineTaskStage (events : List Event) : Prop :=
  events.Pairwise (fun a b => ¬ deadlinePairClash a b)

instance (events : List Event) : Decidable (uniqueDeadlineTaskStage events) := by
  unfold uniqueDeadlineTaskStage; infer_instance

/-- The time-based-overdue condition of the evaluator: due_time present,
due_date equal to today, and the due instant strictly before now. -/
def timeOverdue (t : Task) (now : Instant) : Bool :=
  match t.due_date, t.due_time with
  | some dd, some tt => dd == now.day && decide (tt - now.sec < 0)
  | _, _ => false

/-- A sample task for concrete runs. -/
def sampleTask (id : Nat) (status : String) (dd : Option Int)
    (tt : Option Int) : Task :=
  { id := id, title := "t", description := "", status := status,
    priority := "normal", due_date := dd, due_time := tt }

/-- A sample pending event for concrete runs. -/
def sampleEvent (id : Nat) (kind : String) (status : String) : Event :=
  { id := id, kind := kind, task_id := some id, stage := some "D-0",
    slot := none, payload := none, rendered_text := none, status := status,
    rendered_at := none }

/-- Midnight of day 0. -/
def now0 : Instant := ⟨0, 0⟩

/-- One hour past midnight of day 0. -/
def now1h : Instant := ⟨0, 3600⟩

/-- A store with one pending deadline event. -/
def dbOne : DB := ⟨[sampleEvent 0 "task_deadline_reminder" "created"], [], []⟩

/-- A store with two pending deadline events. -/
def dbTwo : DB :=
  ⟨[sampleEvent 0 "task_deadline_reminder" "created",
    sampleEvent 1 "task_deadline_reminder" "created"], [], []⟩

/-- Backend oracle that always replies with the text "ok". -/
def llmOkCall : Nat → LLMCall := fun _ => .reply (some "ok")

/-- Backend oracle that always raises LLMAPIError("boom"). -/
def llmBoomCall : Nat → LLMCall := fun _ => .raiseApi "boom"

/-- Backend oracle whose first call raises and whose later calls reply. -/
def llmMixedCall : Nat → LLMCall :=
  fun i => if i = 0 then .raiseApi "boom" else .reply (some "ok")

/-- Write oracle: every unit of work succeeds. -/
def wfNone : Nat → Option String := fun _ => none

/-- Two overdue tasks, as fetched by one scan. -/
def twoOverdueTasks : List Task :=
  [sampleTask 1 "doing" (some (-1)) none, sampleTask 2 "doing" (some (-1)) none]

/-- A concrete deadline payload. -/
def payload0 : Payload := mkPayload (sampleTask 1 "doing" (some 0) none) now0 "D-0"

/-- A raw deadline-reminder row for task 1, stage D-0 (racing writer A). -/
def raceRowA : Event := sampleEvent 1 "task_deadline_reminder" "created"

/-- A second raw row for the same (task, stage) pair (racing writer B). -/
def raceRowB : Event :=
  { sampleEvent 2 "task_deadline_reminder" "created" with task_id := some 1 }

/-! ### Stage Evaluator lemmas -/

theorem mem_insertSorted {b a : String} {l : List String} :
    b ∈ insertSorted a l ↔ b = a ∨ b ∈ l := by
  induction l with
  | nil => simp [insertSorted]
  | cons c l ih =>
    by_cases h : stageOrder c < stageOrder a
    · simp only [insertSorted, if_pos h, List.mem_cons, ih]
      tauto
    · simp only [insertSorted, if_neg h, List.mem_cons]

theorem mem_sortStages {a : String} {l : List String} :
    a ∈ sortStages l ↔ a ∈ l := by
  induction l with
  | nil => simp [sortStages]
  | cons b l ih =>
    simp only [sortStages, List.foldr_cons] at *
    rw [mem_insertSorted, ih, List.mem_cons]

theorem sorted_insertSorted {a : String} {l : List String}
    (h : l.Pairwise (fun x y => stageOrder x ≤ stageOrder y)) :
    (insertSorted a l).Pairwise (fun x y => stageOrder x ≤ stageOrder y) := by
  induction l with
  | nil => simp [insertSorted]
  | cons b l ih =>
    rcases List.pairwise_cons.mp h with ⟨hb, hl⟩
    by_cases hba : stageOrder b < stageOrder a
    · rw [insertSorted, if_pos hba]
      refine List.pairwise_cons.mpr ⟨?_, ih hl⟩
      intro c hc
      rcases mem_insertSorted.mp hc with rfl | hc
      · omega
      · exact hb c hc
    · rw [insertSorted, if_neg hba]
      refine List.pairwise_cons.mpr ⟨?_, h⟩
      intro c hc
      rcases List.mem_cons.mp hc with rfl | hc
      · omega
      · have := hb c hc; omega

theorem sortStages_sorted (l : List String) :
    (sortStages l).Pairwise (fun a b => stageOrder a ≤ stageOrder b) := by
  induction l with
  | nil => simp [sortStages]
  | cons b l ih =>
    simpa only [sortStages, List.foldr_cons] using sorted_insertSorted ih

theorem mem_dateStages (s : String) (d : Int) :
    s ∈ STAGES_DATE_ONLY.filterMap
        (fun p => if d = p.2 then some p.1 else none) ↔
      (s = "D-7" ∧ d = 7) ∨ (s = "D-3" ∧ d = 3) ∨ (s = "D-1" ∧ d = 1) ∨
        (s = "D-0" ∧ d = 0) := by
  simp only [STAGES_DATE_ONLY, List.mem_filterMap, List.mem_cons,
    List.not_mem_nil, or_false]
  constructor
  · rintro ⟨p, hp, hval⟩
    rcases hp with h | h | h | h <;> subst h <;>
      simp only [ite_eq_iff] at hval <;>
      rcases hval with ⟨hd, hs⟩ | ⟨_, hs⟩ <;> simp_all
  · rintro (⟨hs, hd⟩ | ⟨hs, hd⟩ | ⟨hs, hd⟩ | ⟨hs, hd⟩) <;> subst hs <;>
      subst hd <;> [exact ⟨("D-7", 7), by simp⟩; exact ⟨("D-3", 3), by simp⟩;
        exact ⟨("D-1", 1), by simp⟩; exact ⟨("D-0", 0), by simp⟩]

theorem mem_timeStages (s : String) (d : Int) :
    s ∈ STAGES_TIME_ONLY.filterMap
        (fun p => if d ≤ p.2 then some p.1 else none) ↔
      (s = "T-2H" ∧ d ≤ 7200) ∨ (s = "T-30M" ∧ d ≤ 1800) := by
  simp only [STAGES_TIME_ONLY, List.mem_filterMap, List.mem_cons,
    List.not_mem_nil, or_false]
  constructor
  · rintro ⟨p, hp, hval⟩
    rcases hp with h | h <;> subst h <;>
      simp only [ite_eq_iff] at hval <;>
      rcases hval with ⟨hd, hs⟩ | ⟨_, hs⟩ <;> simp_all
  · rintro (⟨hs, hd⟩ | ⟨hs, hd⟩) <;> subst hs <;>
      [exact ⟨("T-2H", 7200), by simp [hd]⟩;
       exact ⟨("T-30M", 1800), by simp [hd]⟩]

/-! ### Scanner lemmas -/

theorem insertIgnoreDeadline_raises (store : List Event) (tid : Nat)
    (s : String) (p : Payload) :
    insertIgnoreDeadline store tid s p = .error .noMatchingConflictTarget :=
  rfl

theorem scanStages_result (t : Task) (now : Instant) (limit : Nat) :
    ∀ (stages : List String) (c : Nat) (store : List Event),
      scanStages t now limit stages c store = .ok (c, store) ∨
      scanStages t now limit stages c store =
        .error .noMatchingConflictTarget := by
  intro stages
  induction stages with
  | nil => intro c store; exact Or.inl rfl
  | cons s rest ih =>
    intro c store
    rw [scanStages]
    split_ifs
    · exact Or.inl rfl
    · rw [insertIgnoreDeadline_raises]
      exact Or.inr rfl

theorem scanTasks_result (now : Instant) (limit : Nat) :
    ∀ (tasks : List Task) (c : Nat) (store : List Event),
      scanTasks now limit tasks c store = .ok (c, store) ∨
      scanTasks now limit tasks c store =
        .error .noMatchingConflictTarget := by
  intro tasks
  induction tasks with
  | nil => intro c store; exact Or.inl rfl
  | cons t rest ih =>
    intro c store
    rw [scanTasks]
    rcases scanStages_result t now limit (compute_stages_for_task t now)
      c store with h | h
    · rw [h]
      exact ih c store
    · rw [h]
      exact Or.inr rfl

theorem scan_store_unchanged (tasks : List Task) (now : Instant)
    (limit : Nat) (db : List Event) :
    (scan_deadline_reminders tasks now limit db).2 = db := by
  simp only [scan_deadline_reminders]
  rcases scanTasks_result now limit tasks 0 db with h | h
  · rw [h]
    simp
  · rw [h]

/-! ### Claims C3 and C4: the Stage Evaluator -/

/-- C3 (counterexample): the claim "otherwise it includes the label D-k
exactly when (due_date − today) equals k" is false as stated: a non-terminal
task due today whose due_time lies one hour in the past has daysLeft = 0, yet
the evaluator returns exactly ["OVERDUE"] and no "D-0" (the time-based
overdue branch discards the date-threshold labels). -/
theorem stage_time_overdue_drops_date_labels :
    (sampleTask 1 "doing" (some 0) (some 0)).status ≠ "done" ∧
    (sampleTask 1 "doing" (some 0) (some 0)).status ≠ "canceled" ∧
    (sampleTask 1 "doing" (some 0) (some 0)).due_date = some now1h.day ∧
    ¬ (now1h.day < now1h.day) ∧
    compute_stages_for_task (sampleTask 1 "doing" (some 0) (some 0)) now1h =
      ["OVERDUE"] ∧
    "D-0" ∉ compute_stages_for_task (sampleTask 1 "doing" (some 0) (some 0))
      now1h := by
  decide

/-- C3 (amended): the Stage Evaluator is a pure function of the task snapshot
and the instant; it returns [] when status is done or canceled or when
due_date is absent; it returns exactly ["OVERDUE"] when due_date is strictly
before today; and otherwise — except when the time-based-overdue branch fires
(due_time present, due_date = today, due instant before now), in which case
the result is exactly ["OVERDUE"] — it includes the label D-k exactly when
(due_date − today) equals k, for each threshold k in {7, 3, 1, 0}. -/
theorem stage_date_thresholds_exact (t : Task) (now : Instant) :
    ((t.status = "done" ∨ t.status = "canceled") →
      compute_stages_for_task t now = []) ∧
    (t.due_date = none → compute_stages_for_task t now = []) ∧
    (∀ dd : Int, ¬(t.status = "done" ∨ t.status = "canceled") →
      t.due_date = some dd →
      ((dd < now.day → compute_stages_for_task t now = ["OVERDUE"]) ∧
       (¬ dd < now.day → timeOverdue t now = false →
        (("D-7" ∈ compute_stages_for_task t now ↔ dd - now.day = 7) ∧
         ("D-3" ∈ compute_stages_for_task t now ↔ dd - now.day = 3) ∧
         ("D-1" ∈ compute_stages_for_task t now ↔ dd - now.day = 1) ∧
         ("D-0" ∈ compute_stages_for_task t now ↔ dd - now.day = 0))))) := by
  refine ⟨?_, ?_, ?_⟩
  · intro h
    simp [compute_stages_for_task, h]
  · intro h
    by_cases hst : t.status = "done" ∨ t.status = "canceled" <;>
      simp [compute_stages_for_task, h, hst]
  · intro dd hst hdd
    constructor
    · intro hlt
      simp [compute_stages_for_task, hst, hdd, hlt]
    · intro hge hto
      have hmem : ∀ s : String, s ∈ compute_stages_for_task t now ↔
          s ∈ STAGES_DATE_ONLY.filterMap
            (fun p => if dd - now.day = p.2 then some p.1 else none) ∨
          (∃ tt, t.due_time = some tt ∧ dd = now.day ∧
            s ∈ STAGES_TIME_ONLY.filterMap
              (fun p => if tt - now.sec ≤ p.2 then some p.1 else none)) := by
        intro s
        cases htt : t.due_time with
        | none =>
          simp [compute_stages_for_task, hst, hdd, hge, htt, mem_sortStages]
        | some tt =>
          by_cases hday : dd = now.day
          · have hnn : ¬ tt - now.sec < 0 := by
              simp only [timeOverdue, hdd, htt, Bool.and_eq_false_iff,
                beq_eq_false_iff_ne, ne_eq, decide_eq_false_iff_not] at hto
              rcases hto with h | h
              · exact absurd hday h
              · exact h
            simp [compute_stages_for_task, hst, hdd, hge, htt, hday, hnn,
              mem_sortStages]
          · simp [compute_stages_for_task, hst, hdd, hge, htt, hday,
              mem_sortStages]
      refine ⟨?_, ?_, ?_, ?_⟩ <;>
      · rw [hmem]
        simp only [mem_dateStages, mem_timeStages]
        constructor
        · rintro ((⟨hlbl, hk⟩ | ⟨hlbl, hk⟩ | ⟨hlbl, hk⟩ | ⟨hlbl, hk⟩) |
            ⟨tt, _, _, (⟨hlbl, _⟩ | ⟨hlbl, _⟩)⟩) <;> simp_all
        · intro h
          exact Or.inl (by simp [h])

/-- C3 witness: the amended date rules applied to a concrete task due in
three days at midnight of day 0. -/
theorem stage_date_thresholds_exact_witness :
    "D-3" ∈ compute_stages_for_task (sampleTask 1 "doing" (some 3) none) now0 ∧
    "D-0" ∉ compute_stages_for_task (sampleTask 1 "doing" (some 3) none) now0 := by
  have h := (stage_date_thresholds_exact (sampleTask 1 "doing" (some 3) none)
    now0).2.2 3 (by decide) (by decide)
  have h2 := h.2 (by decide) (by decide)
  refine ⟨h2.2.1.mpr (by decide), fun hm => ?_⟩
  exact absurd (h2.2.2.2.mp hm) (by decide)

/-- C4 (counterexample): the claim quantifies over every task with due_time
present and due_date = today, but a task with terminal status `done` due
today one hour ago returns [] — not ["OVERDUE"] as the claim's delta < 0 case
demands (the status check precedes the time branch). -/
theorem stage_done_task_ignores_time_overdue :
    (sampleTask 1 "done" (some 0) (some 0)).due_time = some 0 ∧
    (sampleTask 1 "done" (some 0) (some 0)).due_date = some now1h.day ∧
    ((0 : Int) - now1h.sec < 0) ∧
    compute_stages_for_task (sampleTask 1 "done" (some 0) (some 0)) now1h = [] ∧
    compute_stages_for_task (sampleTask 1 "done" (some 0) (some 0)) now1h ≠
      ["OVERDUE"] := by
  decide

/-- C4 (amended): for every task with non-terminal status, due_time present
and due_date equal to today, with delta = due instant − now: if delta < 0 the
evaluator returns exactly ["OVERDUE"], discarding any date labels; otherwise
it includes T-2H exactly when delta ≤ 2 hours and T-30M exactly when
delta ≤ 30 minutes; and the returned list is sorted by the fixed urgency
order OVERDUE, T-30M, T-2H, D-0, D-1, D-3, D-7 (the `stageOrder` key). -/
theorem stage_time_thresholds_and_order (t : Task) (now : Instant)
    (hst : ¬(t.status = "done" ∨ t.status = "canceled"))
    (dd tt : Int) (hdd : t.due_date = some dd) (htt : t.due_time = some tt)
    (hday : dd = now.day) :
    (tt - now.sec < 0 → compute_stages_for_task t now = ["OVERDUE"]) ∧
    (0 ≤ tt - now.sec →
      (("T-2H" ∈ compute_stages_for_task t now ↔ tt - now.sec ≤ 7200) ∧
       ("T-30M" ∈ compute_stages_for_task t now ↔ tt - now.sec ≤ 1800))) ∧
    (compute_stages_for_task t now).Pairwise
      (fun a b => stageOrder a ≤ stageOrder b) := by
  subst hday
  have hlt : ¬ (now.day < now.day) := lt_irrefl _
  by_cases hneg : tt - now.sec < 0
  · have hov : compute_stages_for_task t now = ["OVERDUE"] := by
      simp [compute_stages_for_task, hst, hdd, htt, hlt, hneg]
    refine ⟨fun _ => hov, fun hpos => absurd hneg (by omega), ?_⟩
    rw [hov]; simp
  · have hmem : ∀ s : String, s ∈ compute_stages_for_task t now ↔
        s ∈ STAGES_DATE_ONLY.filterMap
          (fun p => if now.day - now.day = p.2 then some p.1 else none) ++
          STAGES_TIME_ONLY.filterMap
            (fun p => if tt - now.sec ≤ p.2 then some p.1 else none) := by
      intro s
      simp [compute_stages_for_task, hst, hdd, htt, hlt, hneg, mem_sortStages]
    refine ⟨fun h => absurd h hneg, fun hpos => ⟨?_, ?_⟩, ?_⟩
    · rw [hmem]
      simp only [List.mem_append, mem_dateStages, mem_timeStages]
      constructor
      · rintro ((⟨hlbl, _⟩ | ⟨hlbl, _⟩ | ⟨hlbl, _⟩ | ⟨hlbl, _⟩) |
          (⟨_, hk⟩ | ⟨hlbl, _⟩)) <;> simp_all
      · intro h
        exact Or.inr (Or.inl ⟨trivial, h⟩)
    · rw [hmem]
      simp only [List.mem_append, mem_dateStages, mem_timeStages]
      constructor
      · rintro ((⟨hlbl, _⟩ | ⟨hlbl, _⟩ | ⟨hlbl, _⟩ | ⟨hlbl, _⟩) |
          (⟨hlbl, _⟩ | ⟨_, hk⟩)) <;> simp_all
      · intro h
        exact Or.inr (Or.inr ⟨trivial, h⟩)
    · have hres : compute_stages_for_task t now =
          sortStages (STAGES_DATE_ONLY.filterMap
            (fun p => if now.day - now.day = p.2 then some p.1 else none) ++
            STAGES_TIME_ONLY.filterMap
              (fun p => if tt - now.sec ≤ p.2 then some p.1 else none)) := by
        simp [compute_stages_for_task, hst, hdd, htt, hlt, hneg]
      rw [hres]
      exact sortStages_sorted _

/-- C4 witness: the amended time rules applied to a concrete task due today in
1000 seconds. -/
theorem stage_time_thresholds_and_order_witness :
    "T-30M" ∈ compute_stages_for_task
      (sampleTask 1 "doing" (some 0) (some 1000)) now0 := by
  have h := stage_time_thresholds_and_order
    (sampleTask 1 "doing" (some 0) (some 1000)) now0 (by decide) 0 1000
    (by decide) (by decide) (by decide)
  exact ((h.2.1 (by decide)).2).mpr (by decide)

/-! ### Claims C1 and C8: the Reminder Scanner -/

/-- C1 (code bug): the claim states the spec-intended idempotent insert, but
the statement built at reminders.py lines 121-132 names the conflict target
(task_id, stage) with no index predicate, while the only unique index on
those columns is the partial index ix_notification_events_task_stage_unique;
PostgreSQL therefore infers no arbiter and the statement raises
ProgrammingError 42P10 on every attempt — even with no conflicting row —
instead of inserting or no-op'ing.  At the failing input (two overdue tasks,
cap 1, empty store) the scan aborts with that error and creates nothing,
where the claim (and the repo's own tests) expect a first run returning 1
and a second run returning 0. -/
theorem scan_insert_raises_no_arbiter :
    inferArbiter ["task_id", "stage"] = none ∧
    insertIgnoreDeadline [] 1 "D-0" payload0 =
      .error .noMatchingConflictTarget ∧
    (scan_deadline_reminders twoOverdueTasks now0 1 []).1 =
      .error .noMatchingConflictTarget ∧
    (scan_deadline_reminders twoOverdueTasks now0 1 []).2 = [] := by
  exact ⟨rfl, rfl, rfl, rfl⟩

/-- C8 (code bug): the claim states the cap/count/commit contract of the
scanner, but any invocation whose evaluator yields at least one candidate
stage raises ProgrammingError 42P10 at its first insert (no inferable
arbiter for the conflict target), so it returns no count, inserts no row
and commits nothing; the only successful invocations are no-op runs with no
candidate stages, which return 0 and leave the store untouched. -/
theorem scan_count_unreachable_no_arbiter :
    (scan_deadline_reminders [sampleTask 1 "doing" (some 0) none] now0 10
      []).1 = .error .noMatchingConflictTarget ∧
    (scan_deadline_reminders [sampleTask 1 "doing" (some 0) none] now0 10
      []).2 = [] ∧
    (scan_deadline_reminders [sampleTask 1 "done" (some 0) none] now0 5
      []).1 = .ok 0 ∧
    (scan_deadline_reminders [sampleTask 1 "done" (some 0) none] now0 5
      []).2 = [] := by
  exact ⟨rfl, rfl, rfl, rfl⟩

/-! ### Renderer lemmas -/

theorem renderEventStep_eq (now : Instant) (ev : Event) (call : LLMCall)
    (wf : Option String) (db : DB) :
    renderEventStep now ev call wf db =
      (⟨stepEvents now ev call wf db.events,
        db.deliveries ++
          (if evOk ev call wf then [⟨ev.id, "in_app", "sent", now⟩] else []),
        db.messages ++
          (if evOk ev call wf then [⟨"assistant", llmText call, some ev.id⟩]
           else [])⟩,
       evOk ev call wf, knownKind ev) := by
  unfold renderEventStep render_event_text stepEvents evOk evFailMsg llmText
  by_cases hk : knownKind ev
  · cases call with
    | reply tf =>
      by_cases ht : pyStrip (tf.getD "") == ""
      · simp [hk, ht]
      · cases wf with
        | some m => simp [hk, ht]
        | none => simp [hk, ht]
    | raiseApi m => simp [hk]
    | raiseOther m => simp [hk]
  · simp [hk]

theorem stepEvents_eq_map (now : Instant) (ev : Event) (call : LLMCall)
    (w : Option String) (evs : List Event) :
    stepEvents now ev call w evs =
      evs.map (fun e => if e.id == ev.id then updFor now ev call w e else e) := by
  by_cases h : evOk ev call w = true
  · simp only [stepEvents, if_pos h, markRendered, updFor]
  · simp only [stepEvents, if_neg h, markFailed, updFor]

theorem renderLoop_spec (now : Instant) (llm : Nat → LLMCall)
    (wf : Nat → Option String) :
    ∀ (l : List Event) (i : Nat) (s : Tx),
      renderLoop now llm wf l i s =
        (⟨s.durable,
          ⟨applyEvOutcomes now llm wf l i s.session.events,
           s.session.deliveries ++ delsOf now llm wf l i,
           s.session.messages ++ msgsOf now llm wf l i⟩⟩,
         okCount llm wf l i, knownCount l) := by
  intro l
  induction l with
  | nil =>
    intro i s
    simp [renderLoop, applyEvOutcomes, delsOf, msgsOf, okCount, knownCount]
  | cons ev rest ih =>
    intro i s
    rw [renderLoop, renderEventStep_eq, ih]
    simp [applyEvOutcomes, delsOf, msgsOf, okCount, knownCount,
      List.append_assoc]

theorem renderLoop_durable (now : Instant) (llm : Nat → LLMCall)
    (wf : Nat → Option String) (l : List Event) (i : Nat) (s : Tx) :
    ((renderLoop now llm wf l i s).1).durable = s.durable := by
  rw [renderLoop_spec]

theorem render_eq (db : DB) (batch : Nat) (now : Instant)
    (llm : Nat → LLMCall) (wf : Nat → Option String) :
    render_and_project_in_app db batch now llm wf =
      (okCount llm wf (fetchCreated db batch) 0,
       ⟨applyEvOutcomes now llm wf (fetchCreated db batch) 0 db.events,
        db.deliveries ++ delsOf now llm wf (fetchCreated db batch) 0,
        db.messages ++ msgsOf now llm wf (fetchCreated db batch) 0⟩) := by
  simp only [render_and_project_in_app, txCommit]
  rw [renderLoop_spec]

theorem renderCalls_eq (db : DB) (batch : Nat) (now : Instant)
    (llm : Nat → LLMCall) (wf : Nat → Option String) :
    renderCalls db batch now llm wf = knownCount (fetchCreated db batch) := by
  simp only [renderCalls]
  rw [renderLoop_spec]

theorem find?_map_update_self (evs : List Event) (id : Nat)
    (f : Event → Event) (hf : ∀ e, (f e).id = e.id) :
    (evs.map (fun e => if e.id == id then f e else e)).find?
        (fun e => e.id == id) =
      (evs.find? (fun e => e.id == id)).map f := by
  induction evs with
  | nil => rfl
  | cons e rest ih =>
    by_cases h : (e.id == id) = true
    · have hf' : ((f e).id == id) = true := by rw [hf]; exact h
      rw [List.map_cons, if_pos h,
        List.find?_cons_of_pos (p := fun x : Event => x.id == id) _ hf',
        List.find?_cons_of_pos (p := fun x : Event => x.id == id) _ h]
      rfl
    · rw [List.map_cons, if_neg h,
        List.find?_cons_of_neg (p := fun x : Event => x.id == id) _ h,
        List.find?_cons_of_neg (p := fun x : Event => x.id == id) _ h, ih]

theorem find?_map_update_ne (evs : List Event) (id id' : Nat)
    (f : Event → Event) (hf : ∀ e, (f e).id = e.id) (h : id' ≠ id) :
    (evs.map (fun e => if e.id == id then f e else e)).find?
        (fun e => e.id == id') =
      evs.find? (fun e => e.id == id') := by
  induction evs with
  | nil => rfl
  | cons e rest ih =>
    by_cases hu : (e.id == id) = true
    · have hne : ¬ (e.id == id') = true := by
        simp only [beq_iff_eq] at hu ⊢
        omega
      have hne' : ¬ ((f e).id == id') = true := by rw [hf]; exact hne
      rw [List.map_cons, if_pos hu,
        List.find?_cons_of_neg (p := fun x : Event => x.id == id') _ hne',
        List.find?_cons_of_neg (p := fun x : Event => x.id == id') _ hne, ih]
    · by_cases hm : (e.id == id') = true
      · rw [List.map_cons, if_neg hu,
          List.find?_cons_of_pos (p := fun x : Event => x.id == id') _ hm,
          List.find?_cons_of_pos (p := fun x : Event => x.id == id') _ hm]
      · rw [List.map_cons, if_neg hu,
          List.find?_cons_of_neg (p := fun x : Event => x.id == id') _ hm,
          List.find?_cons_of_neg (p := fun x : Event => x.id == id') _ hm, ih]

theorem updFor_id (now : Instant) (ev : Event) (call : LLMCall)
    (w : Option String) (e : Event) : (updFor now ev call w e).id = e.id := by
  unfold updFor
  split_ifs <;> rfl

theorem find?_stepEvents_self (now : Instant) (ev : Event) (call : LLMCall)
    (w : Option String) (evs : List Event) :
    (stepEvents now ev call w evs).find? (fun e => e.id == ev.id) =
      (evs.find? (fun e => e.id == ev.id)).map (updFor now ev call w) := by
  rw [stepEvents_eq_map]
  exact find?_map_update_self evs ev.id _ (updFor_id now ev call w)

theorem find?_stepEvents_ne (now : Instant) (ev : Event) (call : LLMCall)
    (w : Option String) (evs : List Event) (id' : Nat) (h : id' ≠ ev.id) :
    (stepEvents now ev call w evs).find? (fun e => e.id == id') =
      evs.find? (fun e => e.id == id') := by
  rw [stepEvents_eq_map]
  exact find?_map_update_ne evs ev.id id' _ (updFor_id now ev call w) h

theorem find?_applyEvOutcomes_not_mem (now : Instant) (llm : Nat → LLMCall)
    (wf : Nat → Option String) :
    ∀ (l : List Event) (i : Nat) (evs : List Event) (id : Nat),
      (∀ ev ∈ l, ev.id ≠ id) →
      (applyEvOutcomes now llm wf l i evs).find? (fun e => e.id == id) =
        evs.find? (fun e => e.id == id) := by
  intro l
  induction l with
  | nil => intro i evs id _; rfl
  | cons ev rest ih =>
    intro i evs id h
    rw [applyEvOutcomes, ih _ _ _ (fun e he => h e (List.mem_cons_of_mem ev he)),
      find?_stepEvents_ne]
    exact fun he => (h ev (List.mem_cons_self ev rest)) he.symm

theorem find?_applyEvOutcomes_get (now : Instant) (llm : Nat → LLMCall)
    (wf : Nat → Option String) :
    ∀ (l : List Event) (i : Nat) (evs : List Event) (j : Nat)
      (hj : j < l.length), ((l.map (fun e => e.id)).Nodup) →
      (applyEvOutcomes now llm wf l i evs).find?
          (fun e => e.id == (l.get ⟨j, hj⟩).id) =
        (evs.find? (fun e => e.id == (l.get ⟨j, hj⟩).id)).map
          (updFor now (l.get ⟨j, hj⟩) (llm (i + j)) (wf (i + j))) := by
  intro l
  induction l with
  | nil => intro i evs j hj; exact absurd hj (by simp)
  | cons ev rest ih =>
    intro i evs j hj hnd
    rw [List.map_cons, List.nodup_cons] at hnd
    cases j with
    | zero =>
      rw [applyEvOutcomes]
      have hnotin : ∀ e ∈ rest, e.id ≠ (List.get (ev :: rest) ⟨0, hj⟩).id := by
        intro e he heq
        exact hnd.1 (heq ▸ List.mem_map_of_mem (fun x => x.id) he)
      rw [find?_applyEvOutcomes_not_mem now llm wf rest (i + 1) _ _ hnotin]
      simpa using find?_stepEvents_self now ev (llm i) (wf i) evs
    | succ j' =>
      have hj' : j' < rest.length := Nat.lt_of_succ_lt_succ hj
      have hget : List.get (ev :: rest) ⟨j' + 1, hj⟩ = rest.get ⟨j', hj'⟩ := rfl
      have hne : (rest.get ⟨j', hj'⟩).id ≠ ev.id := by
        intro heq
        exact hnd.1 (heq ▸ List.mem_map_of_mem (fun x => x.id)
          (rest.get_mem _ _))
      rw [applyEvOutcomes, hget, ih (i + 1) _ j' hj' hnd.2,
        find?_stepEvents_ne _ _ _ _ _ _ hne]
      have harith : i + (j' + 1) = i + 1 + j' := by omega
      rw [harith]

theorem delsOf_mem (now : Instant) (llm : Nat → LLMCall)
    (wf : Nat → Option String) :
    ∀ (l : List Event) (i : Nat) (d : Delivery), d ∈ delsOf now llm wf l i →
      d.sent_at = now ∧ d.channel = "in_app" ∧ d.status = "sent" ∧
        d.event_id ∈ l.map (fun e => e.id) := by
  intro l
  induction l with
  | nil => intro i d hd; exact absurd hd (List.not_mem_nil d)
  | cons ev rest ih =>
    intro i d hd
    rw [delsOf, List.mem_append] at hd
    rcases hd with hd | hd
    · rw [List.mem_ite_nil_right] at hd
      rcases hd with ⟨_, hd⟩
      rw [List.mem_singleton] at hd
      subst hd
      exact ⟨rfl, rfl, rfl, by simp⟩
    · obtain ⟨h1, h2, h3, h4⟩ := ih (i + 1) d hd
      exact ⟨h1, h2, h3, by simp [h4]⟩

theorem msgsOf_mem (now : Instant) (llm : Nat → LLMCall)
    (wf : Nat → Option String) :
    ∀ (l : List Event) (i : Nat) (m : Msg), m ∈ msgsOf now llm wf l i →
      m.role = "assistant" ∧
        ∃ id ∈ l.map (fun e => e.id), m.event_id = some id := by
  intro l
  induction l with
  | nil => intro i m hm; exact absurd hm (List.not_mem_nil m)
  | cons ev rest ih =>
    intro i m hm
    rw [msgsOf, List.mem_append] at hm
    rcases hm with hm | hm
    · rw [List.mem_ite_nil_right] at hm
      rcases hm with ⟨_, hm⟩
      rw [List.mem_singleton] at hm
      subst hm
      exact ⟨rfl, ev.id, by simp, rfl⟩
    · obtain ⟨h1, id, hid, h2⟩ := ih (i + 1) m hm
      exact ⟨h1, id, by simp [hid], h2⟩

theorem delsOf_length (now : Instant) (llm : Nat → LLMCall)
    (wf : Nat → Option String) :
    ∀ (l : List Event) (i : Nat),
      (delsOf now llm wf l i).length = okCount llm wf l i := by
  intro l
  induction l with
  | nil => intro i; rfl
  | cons ev rest ih =>
    intro i
    rw [delsOf, okCount, List.length_append, ih]
    split_ifs <;> simp

theorem delsOf_filter_get (now : Instant) (llm : Nat → LLMCall)
    (wf : Nat → Option String) :
    ∀ (l : List Event) (i : Nat) (j : Nat) (hj : j < l.length),
      ((l.map (fun e => e.id)).Nodup) →
      (delsOf now llm wf l i).filter
          (fun d => d.event_id == (l.get ⟨j, hj⟩).id) =
        (if evOk (l.get ⟨j, hj⟩) (llm (i + j)) (wf (i + j)) then
          [⟨(l.get ⟨j, hj⟩).id, "in_app", "sent", now⟩] else []) := by
  intro l
  induction l with
  | nil => intro i j hj; exact absurd hj (by simp)
  | cons ev rest ih =>
    intro i j hj hnd
    rw [List.map_cons, List.nodup_cons] at hnd
    cases j with
    | zero =>
      rw [delsOf, List.filter_append]
      have htail : (delsOf now llm wf rest (i + 1)).filter
          (fun d => d.event_id == (List.get (ev :: rest) ⟨0, hj⟩).id) = [] := by
        rw [List.filter_eq_nil_iff]
        intro d hd hpred
        obtain ⟨_, _, _, hmem⟩ := delsOf_mem now llm wf rest (i + 1) d hd
        rw [beq_iff_eq] at hpred
        exact hnd.1 (hpred ▸ hmem)
      rw [htail, List.append_nil]
      by_cases hok : evOk ev (llm i) (wf i) = true
      · simp [hok]
      · simp [hok]
    | succ j' =>
      have hj' : j' < rest.length := Nat.lt_of_succ_lt_succ hj
      have hget : List.get (ev :: rest) ⟨j' + 1, hj⟩ = rest.get ⟨j', hj'⟩ := rfl
      have hne : ev.id ≠ (rest.get ⟨j', hj'⟩).id := by
        intro heq
        exact hnd.1 (heq ▸ List.mem_map_of_mem (fun x => x.id)
          (rest.get_mem _ _))
      rw [delsOf, List.filter_append, hget]
      have hne2 : ¬ ev.id = rest[j'].id := hne
      have hhead : (if evOk ev (llm i) (wf i) then
          ([⟨ev.id, "in_app", "sent", now⟩] : List Delivery) else []).filter
            (fun d => d.event_id == (rest.get ⟨j', hj'⟩).id) = [] := by
        split_ifs <;> simp [hne2]
      rw [hhead, List.nil_append, ih (i + 1) j' hj' hnd.2]
      have harith : i + (j' + 1) = i + 1 + j' := by omega
      rw [harith]

theorem msgsOf_filter_get (now : Instant) (llm : Nat → LLMCall)
    (wf : Nat → Option String) :
    ∀ (l : List Event) (i : Nat) (j : Nat) (hj : j < l.length),
      ((l.map (fun e => e.id)).Nodup) →
      (msgsOf now llm wf l i).filter
          (fun m => m.event_id == some (l.get ⟨j, hj⟩).id) =
        (if evOk (l.get ⟨j, hj⟩) (llm (i + j)) (wf (i + j)) then
          [⟨"assistant", llmText (llm (i + j)), some (l.get ⟨j, hj⟩).id⟩]
         else []) := by
  intro l
  induction l with
  | nil => intro i j hj; exact absurd hj (by simp)
  | cons ev rest ih =>
    intro i j hj hnd
    rw [List.map_cons, List.nodup_cons] at hnd
    cases j with
    | zero =>
      rw [msgsOf, List.filter_append]
      have htail : (msgsOf now llm wf rest (i + 1)).filter
          (fun m => m.event_id == some (List.get (ev :: rest) ⟨0, hj⟩).id) =
            [] := by
        rw [List.filter_eq_nil_iff]
        intro m hm hpred
        obtain ⟨_, id, hid, hmid⟩ := msgsOf_mem now llm wf rest (i + 1) m hm
        rw [beq_iff_eq, hmid, Option.some_inj] at hpred
        exact hnd.1 (hpred ▸ hid)
      rw [htail, List.append_nil]
      by_cases hok : evOk ev (llm i) (wf i) = true
      · simp [hok]
      · simp [hok]
    | succ j' =>
      have hj' : j' < rest.length := Nat.lt_of_succ_lt_succ hj
      have hget : List.get (ev :: rest) ⟨j' + 1, hj⟩ = rest.get ⟨j', hj'⟩ := rfl
      have hne : ev.id ≠ (rest.get ⟨j', hj'⟩).id := by
        intro heq
        exact hnd.1 (heq ▸ List.mem_map_of_mem (fun x => x.id)
          (rest.get_mem _ _))
      rw [msgsOf, List.filter_append, hget]
      have hne2 : ¬ ev.id = rest[j'].id := hne
      have hhead : (if evOk ev (llm i) (wf i) then
          ([⟨"assistant", llmText (llm i), some ev.id⟩] : List Msg) else
            []).filter
            (fun m => m.event_id == some (rest.get ⟨j', hj'⟩).id) = [] := by
        split_ifs <;> simp [hne2]
      rw [hhead, List.nil_append, ih (i + 1) j' hj' hnd.2]
      have harith : i + (j' + 1) = i + 1 + j' := by omega
      rw [harith]

theorem fetchCreated_subset (db : DB) (batch : Nat) :
    ∀ ev ∈ fetchCreated db batch, ev ∈ db.events ∧ ev.status = "created" := by
  intro ev hev
  have h1 := List.take_subset batch _ hev
  rw [List.mem_filter] at h1
  exact ⟨h1.1, by simpa using h1.2⟩

theorem fetchCreated_ids_nodup (db : DB) (batch : Nat)
    (h : idsNodup db.events) :
    ((fetchCreated db batch).map (fun e => e.id)).Nodup := by
  refine List.Nodup.sublist (List.Sublist.map _ ?_) h
  exact (List.take_sublist _ _).trans (List.filter_sublist _)

theorem updFor_status (now : Instant) (ev : Event) (call : LLMCall)
    (w : Option String) (e : Event) :
    (updFor now ev call w e).status =
      if evOk ev call w then "rendered" else "failed" := by
  unfold updFor
  split_ifs <;> rfl

theorem updFor_text (now : Instant) (ev : Event) (call : LLMCall)
    (w : Option String) (e : Event) :
    (updFor now ev call w e).rendered_text =
      some (if evOk ev call w then llmText call else evFailMsg ev call w) := by
  unfold updFor
  split_ifs <;> rfl

theorem updFor_fields (now : Instant) (ev : Event) (call : LLMCall)
    (w : Option String) (e : Event) :
    (updFor now ev call w e).kind = e.kind ∧
    (updFor now ev call w e).task_id = e.task_id ∧
    (updFor now ev call w e).stage = e.stage := by
  unfold updFor
  split_ifs <;> exact ⟨rfl, rfl, rfl⟩

theorem knownCount_eq_length (l : List Event)
    (h : ∀ ev ∈ l, knownKind ev = true) : knownCount l = l.length := by
  induction l with
  | nil => rfl
  | cons ev rest ih =>
    rw [knownCount, if_pos (h ev (List.mem_cons_self ev rest)),
      ih (fun e he => h e (List.mem_cons_of_mem ev he)), List.length_cons]
    omega

theorem render_newDel (db : DB) (batch : Nat) (now : Instant)
    (llm : Nat → LLMCall) (wf : Nat → Option String) :
    (render_and_project_in_app db batch now llm wf).2.deliveries.drop
        db.deliveries.length =
      delsOf now llm wf (fetchCreated db batch) 0 := by
  rw [render_eq]
  exact List.drop_left _ _

theorem render_newMsg (db : DB) (batch : Nat) (now : Instant)
    (llm : Nat → LLMCall) (wf : Nat → Option String) :
    (render_and_project_in_app db batch now llm wf).2.messages.drop
        db.messages.length =
      msgsOf now llm wf (fetchCreated db batch) 0 := by
  rw [render_eq]
  exact List.drop_left _ _

theorem render_event_record (db : DB) (batch : Nat) (now : Instant)
    (llm : Nat → LLMCall) (wf : Nat → Option String)
    (hids : idsNodup db.events) (j : Nat)
    (hj : j < (fetchCreated db batch).length) :
    ∃ e ∈ db.events,
      e.id = ((fetchCreated db batch).get ⟨j, hj⟩).id ∧
      (render_and_project_in_app db batch now llm wf).2.events.find?
          (fun x => x.id == ((fetchCreated db batch).get ⟨j, hj⟩).id) =
        some (updFor now ((fetchCreated db batch).get ⟨j, hj⟩) (llm j) (wf j)
          e) := by
  have hmem : (fetchCreated db batch).get ⟨j, hj⟩ ∈ db.events :=
    (fetchCreated_subset db batch _ (List.get_mem _ j hj)).1
  have hsome : (db.events.find?
      (fun x => x.id == ((fetchCreated db batch).get ⟨j, hj⟩).id)).isSome :=
    List.find?_isSome.mpr ⟨_, hmem, by simp⟩
  obtain ⟨e, he⟩ := Option.isSome_iff_exists.mp hsome
  refine ⟨e, List.mem_of_find?_eq_some he, ?_, ?_⟩
  · have := List.find?_some he
    simpa using this
  · rw [render_eq]
    rw [show ((okCount llm wf (fetchCreated db batch) 0,
        (⟨applyEvOutcomes now llm wf (fetchCreated db batch) 0 db.events,
         db.deliveries ++ delsOf now llm wf (fetchCreated db batch) 0,
         db.messages ++ msgsOf now llm wf (fetchCreated db batch) 0⟩ : DB)) :
           Nat × DB).2.events =
      applyEvOutcomes now llm wf (fetchCreated db batch) 0 db.events from rfl]
    rw [find?_applyEvOutcomes_get now llm wf (fetchCreated db batch) 0
      db.events j hj (fetchCreated_ids_nodup db batch hids), he]
    simp

theorem render_event_status (db : DB) (batch : Nat) (now : Instant)
    (llm : Nat → LLMCall) (wf : Nat → Option String)
    (hids : idsNodup db.events) (j : Nat)
    (hj : j < (fetchCreated db batch).length) :
    eventStatus (render_and_project_in_app db batch now llm wf).2
        ((fetchCreated db batch).get ⟨j, hj⟩).id =
      some (if evOk ((fetchCreated db batch).get ⟨j, hj⟩) (llm j) (wf j)
        then "rendered" else "failed") := by
  obtain ⟨e, _, _, hfind⟩ := render_event_record db batch now llm wf hids j hj
  unfold eventStatus statusIn
  rw [hfind]
  simp [updFor_status]

theorem render_event_text_stored (db : DB) (batch : Nat) (now : Instant)
    (llm : Nat → LLMCall) (wf : Nat → Option String)
    (hids : idsNodup db.events) (j : Nat)
    (hj : j < (fetchCreated db batch).length) :
    renderedTextIn (render_and_project_in_app db batch now llm wf).2.events
        ((fetchCreated db batch).get ⟨j, hj⟩).id =
      some (some (if evOk ((fetchCreated db batch).get ⟨j, hj⟩) (llm j) (wf j)
        then llmText (llm j)
        else evFailMsg ((fetchCreated db batch).get ⟨j, hj⟩) (llm j)
          (wf j))) := by
  obtain ⟨e, _, _, hfind⟩ := render_event_record db batch now llm wf hids j hj
  unfold renderedTextIn
  rw [hfind]
  simp [updFor_text]

/-! ### Claim C6: durability of the render batch -/

/-- C6 (counterexample): with two pending events and a backend that succeeds,
the first event is fully processed (its session state is `rendered`), yet a
crash after that first event and before the batch's single final commit
leaves the durable store unchanged — the completed event is still
status=created durably, contradicting "completed events remain in their
terminal status". -/
theorem render_crash_loses_completed_event :
    ((renderLoop now0 llmOkCall wfNone ((fetchCreated dbTwo 10).take 1) 0
        ⟨dbTwo, dbTwo⟩).1.session.events.map (fun e => e.status) =
      ["rendered", "created"]) ∧
    renderCrashDurable dbTwo 10 now0 llmOkCall wfNone 1 = dbTwo ∧
    (dbTwo.events.map (fun e => e.status) = ["created", "created"]) := by
  refine ⟨by decide, by decide, by decide⟩

/-- C6 (amended): each event's unit of work is isolated by a savepoint inside
one enclosing transaction, but it is not independently durable: the batch
commits exactly once, after the loop; if the run stops after fully processing
any k events and before that commit, the durable store is exactly the input
store — every event of the batch, completed or not, is still status=created
for the next invocation. -/
theorem render_crash_durable_unchanged (db : DB) (batch : Nat) (now : Instant)
    (llm : Nat → LLMCall) (wf : Nat → Option String) (k : Nat) :
    renderCrashDurable db batch now llm wf k = db := by
  unfold renderCrashDurable
  rw [renderLoop_durable]

/-! ### Claim C5: per-event failure isolation -/

/-- C5: in a batch of fetched pending events (of recognised kinds, with
healthy storage), every event is processed independently: the backend is
invoked exactly once per event with no early abort; the value returned counts
exactly the successful projections (one new Delivery row each); an event
whose backend call raises ends status=failed with no Delivery and no Feed
row; an event whose call succeeds with non-empty stripped text ends
status=rendered with exactly one Delivery row (channel=in_app, status=sent)
and exactly one Feed message (role=assistant, content = the rendered text,
event reference set). -/
theorem render_partial_failure_isolation (db : DB) (batch : Nat)
    (now : Instant) (llm : Nat → LLMCall) (hids : idsNodup db.events)
    (hkind : ∀ ev ∈ fetchCreated db batch, knownKind ev = true) :
    renderCalls db batch now llm wfNone = (fetchCreated db batch).length ∧
    (render_and_project_in_app db batch now llm wfNone).1 =
      ((render_and_project_in_app db batch now llm wfNone).2.deliveries.drop
        db.deliveries.length).length ∧
    ∀ (j : Nat) (hj : j < (fetchCreated db batch).length),
      (∀ m : String, (llm j = .raiseApi m ∨ llm j = .raiseOther m) →
        eventStatus (render_and_project_in_app db batch now llm wfNone).2
            ((fetchCreated db batch).get ⟨j, hj⟩).id = some "failed" ∧
        ((render_and_project_in_app db batch now llm
            wfNone).2.deliveries.drop db.deliveries.length).filter
          (fun d => d.event_id ==
            ((fetchCreated db batch).get ⟨j, hj⟩).id) = [] ∧
        ((render_and_project_in_app db batch now llm wfNone).2.messages.drop
            db.messages.length).filter
          (fun m' => m'.event_id ==
            some ((fetchCreated db batch).get ⟨j, hj⟩).id) = []) ∧
      (∀ tf : Option String, llm j = .reply tf → pyStrip (tf.getD "") ≠ "" →
        eventStatus (render_and_project_in_app db batch now llm wfNone).2
            ((fetchCreated db batch).get ⟨j, hj⟩).id = some "rendered" ∧
        ((render_and_project_in_app db batch now llm
            wfNone).2.deliveries.drop db.deliveries.length).filter
          (fun d => d.event_id ==
            ((fetchCreated db batch).get ⟨j, hj⟩).id) =
          [⟨((fetchCreated db batch).get ⟨j, hj⟩).id, "in_app", "sent",
            now⟩] ∧
        ((render_and_project_in_app db batch now llm wfNone).2.messages.drop
            db.messages.length).filter
          (fun m' => m'.event_id ==
            some ((fetchCreated db batch).get ⟨j, hj⟩).id) =
          [⟨"assistant", pyStrip (tf.getD ""),
            some ((fetchCreated db batch).get ⟨j, hj⟩).id⟩]) := by
  have hndl := fetchCreated_ids_nodup db batch hids
  refine ⟨?_, ?_, ?_⟩
  · rw [renderCalls_eq, knownCount_eq_length _ hkind]
  · rw [render_newDel, delsOf_length, render_eq]
  · intro j hj
    constructor
    · intro m hc
      have hok : evOk ((fetchCreated db batch).get ⟨j, hj⟩) (llm j)
          (wfNone j) = false := by
        rcases hc with hc | hc <;> simp [evOk, hc]
      refine ⟨?_, ?_, ?_⟩
      · have h := render_event_status db batch now llm wfNone hids j hj
        rw [hok] at h
        simpa using h
      · rw [render_newDel, delsOf_filter_get now llm wfNone _ 0 j hj hndl]
        simp only [Nat.zero_add, hok, Bool.false_eq_true, if_false]
      · rw [render_newMsg, msgsOf_filter_get now llm wfNone _ 0 j hj hndl]
        simp only [Nat.zero_add, hok, Bool.false_eq_true, if_false]
    · intro tf hc htext
      have hkj : knownKind ((fetchCreated db batch).get ⟨j, hj⟩) = true :=
        hkind _ (List.get_mem _ j hj)
      have hok : evOk ((fetchCreated db batch).get ⟨j, hj⟩) (llm j)
          (wfNone j) = true := by
        simp [evOk, hc, wfNone, htext]
        exact hkj
      refine ⟨?_, ?_, ?_⟩
      · have h := render_event_status db batch now llm wfNone hids j hj
        rw [hok] at h
        simpa using h
      · rw [render_newDel, delsOf_filter_get now llm wfNone _ 0 j hj hndl]
        simp only [Nat.zero_add, hok, if_true]
      · rw [render_newMsg, msgsOf_filter_get now llm wfNone _ 0 j hj hndl]
        simp only [Nat.zero_add, hok, if_true]
        rw [show llmText (llm j) = pyStrip (tf.getD "") by simp [llmText, hc]]

/-- C5 witness: a concrete batch of two pending events where the first
backend call raises and the second succeeds. -/
theorem render_partial_failure_isolation_witness :
    renderCalls dbTwo 10 now0 llmMixedCall wfNone = 2 ∧
    (render_and_project_in_app dbTwo 10 now0 llmMixedCall wfNone).1 = 1 ∧
    eventStatus (render_and_project_in_app dbTwo 10 now0 llmMixedCall
      wfNone).2 0 = some "failed" ∧
    eventStatus (render_and_project_in_app dbTwo 10 now0 llmMixedCall
      wfNone).2 1 = some "rendered" ∧
    ((render_and_project_in_app dbTwo 10 now0 llmMixedCall
        wfNone).2.deliveries.drop dbTwo.deliveries.length).filter
      (fun d => d.event_id == 1) = [⟨1, "in_app", "sent", now0⟩] ∧
    ((render_and_project_in_app dbTwo 10 now0 llmMixedCall
        wfNone).2.deliveries.drop dbTwo.deliveries.length).filter
      (fun d => d.event_id == 0) = [] := by
  have h := render_partial_failure_isolation dbTwo 10 now0 llmMixedCall
    (by decide) (by decide)
  have h0 := (h.2.2 0 (by decide)).1 "boom" (Or.inl (by decide))
  have h1 := (h.2.2 1 (by decide)).2 (some "ok") (by decide) (by decide)
  exact ⟨by decide, by decide, h0.1, h1.1, h1.2.1, h0.2.1⟩

/-! ### Claim C7: failure marking and error-text truncation -/

/-- C7 (counterexample): the stored error text is not bounded in every
failure branch.  For a store with one pending event and a backend that raises
LLMAPIError with an arbitrary message, the renderer stores
"LLM error: " ++ message without truncation, so no bound N covers all
messages. -/
theorem render_llm_error_text_unbounded :
    ¬ ∃ N : Nat, ∀ msg : String,
      ∀ e ∈ (render_and_project_in_app dbOne 10 now0
          (fun _ => .raiseApi msg) wfNone).2.events,
        (e.rendered_text.getD "").length ≤ N := by
  rintro ⟨N, h⟩
  have hrun : ∀ msg : String,
      (render_and_project_in_app dbOne 10 now0
          (fun _ => .raiseApi msg) wfNone).2.events =
        [{ sampleEvent 0 "task_deadline_reminder" "created" with
            status := "failed",
            rendered_text := some ("LLM error: " ++ msg) }] :=
    fun msg => rfl
  have hbig := h (String.mk (List.replicate (N + 1) 'a')) _
    (by rw [hrun]; exact List.mem_singleton_self _)
  have hlen : (("LLM error: " ++ String.mk (List.replicate (N + 1)
      'a')).length) = "LLM error: ".length + (N + 1) := by
    rw [String.length_append]
    congr 1
    exact List.length_replicate (N + 1) 'a'
  have h11 : "LLM error: ".length = 11 := by decide
  simp only [Option.getD_some] at hbig
  omega

/-- C7 (amended): every event that fails during rendering (backend error,
empty text, unknown event kind, or a storage error during its unit of work)
ends status=failed with the branch's error description stored in place of
rendered_text, and gains no Delivery and no Feed row.  The stored description
is truncated to at most 500 characters in the unexpected-error branches
(empty text, unknown kind, non-LLMAPI exceptions) and in the storage-error
branch, but the LLM-backend-error branch stores "LLM error: " ++ message
without truncation, so its length is unbounded in the message. -/
theorem render_failed_event_marking (db : DB) (batch : Nat) (now : Instant)
    (llm : Nat → LLMCall) (wf : Nat → Option String)
    (hids : idsNodup db.events) :
    (∀ (j : Nat) (hj : j < (fetchCreated db batch).length),
      evOk ((fetchCreated db batch).get ⟨j, hj⟩) (llm j) (wf j) = false →
      eventStatus (render_and_project_in_app db batch now llm wf).2
          ((fetchCreated db batch).get ⟨j, hj⟩).id = some "failed" ∧
      renderedTextIn (render_and_project_in_app db batch now llm wf).2.events
          ((fetchCreated db batch).get ⟨j, hj⟩).id =
        some (some (evFailMsg ((fetchCreated db batch).get ⟨j, hj⟩) (llm j)
          (wf j))) ∧
      ((render_and_project_in_app db batch now llm wf).2.deliveries.drop
          db.deliveries.length).filter
        (fun d => d.event_id ==
          ((fetchCreated db batch).get ⟨j, hj⟩).id) = [] ∧
      ((render_and_project_in_app db batch now llm wf).2.messages.drop
          db.messages.length).filter
        (fun m => m.event_id ==
          some ((fetchCreated db batch).get ⟨j, hj⟩).id) = []) ∧
    (∀ (e : Event) (m : String) (w : Option String), knownKind e = true →
      evFailMsg e (.raiseApi m) w = "LLM error: " ++ m) ∧
    (∀ (e : Event) (m : String) (w : Option String), knownKind e = true →
      evFailMsg e (.raiseOther m) w =
        pySlice ("Unexpected error: " ++ m) 500) ∧
    (∀ (e : Event) (tf : Option String) (m : String), knownKind e = true →
      pyStrip (tf.getD "") ≠ "" →
      evFailMsg e (.reply tf) (some m) =
        pySlice ("Database error: " ++ m) 500) ∧
    (∀ (e : Event) (tf : Option String) (w : Option String),
      knownKind e = true → pyStrip (tf.getD "") = "" →
      evFailMsg e (.reply tf) w =
        pySlice ("Unexpected error: " ++ "Empty text in LLM response") 500) ∧
    (∀ (e : Event) (call : LLMCall) (w : Option String), knownKind e = false →
      evFailMsg e call w =
        pySlice ("Unexpected error: " ++ ("Unknown event kind: " ++ e.kind))
          500) ∧
    (∀ (s : String) (n : Nat), (pySlice s n).length ≤ n) ∧
    (∀ m : String, ("LLM error: " ++ m).length = 11 + m.length) := by
  have hndl := fetchCreated_ids_nodup db batch hids
  refine ⟨?_, ?_, ?_, ?_, ?_, ?_, ?_, ?_⟩
  · intro j hj hok
    refine ⟨?_, ?_, ?_, ?_⟩
    · have h := render_event_status db batch now llm wf hids j hj
      rw [hok] at h
      simpa using h
    · have h := render_event_text_stored db batch now llm wf hids j hj
      rw [hok] at h
      simpa using h
    · rw [render_newDel, delsOf_filter_get now llm wf _ 0 j hj hndl]
      simp only [Nat.zero_add, hok, Bool.false_eq_true, if_false]
    · rw [render_newMsg, msgsOf_filter_get now llm wf _ 0 j hj hndl]
      simp only [Nat.zero_add, hok, Bool.false_eq_true, if_false]
  · intro e m w hk
    simp [evFailMsg, hk]
  · intro e m w hk
    simp [evFailMsg, hk]
  · intro e tf m hk htext
    simp [evFailMsg, hk, htext]
  · intro e tf w hk htext
    simp [evFailMsg, hk, htext]
  · intro e call w hk
    simp [evFailMsg, hk]
  · intro s n
    simp only [pySlice, String.length]
    rw [List.length_take]
    omega
  · intro m
    have h11 : "LLM error: ".length = 11 := by decide
    rw [String.length_append, h11]

/-- C7 witness: a concrete run whose single event fails with a storage error
during its unit of work. -/
theorem render_failed_event_marking_witness :
    eventStatus (render_and_project_in_app dbOne 10 now0 llmOkCall
      (fun _ => some "disk full")).2 0 = some "failed" ∧
    renderedTextIn (render_and_project_in_app dbOne 10 now0 llmOkCall
        (fun _ => some "disk full")).2.events 0 =
      some (some (pySlice ("Database error: " ++ "disk full") 500)) ∧
    ((render_and_project_in_app dbOne 10 now0 llmOkCall
        (fun _ => some "disk full")).2.deliveries.drop
      dbOne.deliveries.length).filter (fun d => d.event_id == 0) = [] := by
  have h := (render_failed_event_marking dbOne 10 now0 llmOkCall
    (fun _ => some "disk full") (by decide)).1 0 (by decide) (by decide)
  have hmsg : evFailMsg ((fetchCreated dbOne 10).get ⟨0, by decide⟩)
      (llmOkCall 0) (some "disk full") =
      pySlice ("Database error: " ++ "disk full") 500 := by decide
  exact ⟨h.1, by rw [← hmsg]; exact h.2.1, h.2.2.1⟩

theorem applyEvOutcomes_length (now : Instant) (llm : Nat → LLMCall)
    (wf : Nat → Option String) :
    ∀ (l : List Event) (i : Nat) (evs : List Event),
      (applyEvOutcomes now llm wf l i evs).length = evs.length := by
  intro l
  induction l with
  | nil => intro i evs; rfl
  | cons ev rest ih =>
    intro i evs
    rw [applyEvOutcomes, ih, stepEvents_eq_map, List.length_map]

theorem applyEvOutcomes_get_cases (now : Instant) (llm : Nat → LLMCall)
    (wf : Nat → Option String) :
    ∀ (l : List Event) (i : Nat) (evs : List Event) (j : Nat)
      (h1 : j < evs.length)
      (h2 : j < (applyEvOutcomes now llm wf l i evs).length),
      (applyEvOutcomes now llm wf l i evs).get ⟨j, h2⟩ = evs.get ⟨j, h1⟩ ∨
      (((applyEvOutcomes now llm wf l i evs).get ⟨j, h2⟩).status =
          "rendered" ∧
        ((applyEvOutcomes now llm wf l i evs).get ⟨j, h2⟩).rendered_at =
          some now) ∨
      ((applyEvOutcomes now llm wf l i evs).get ⟨j, h2⟩).status =
        "failed" := by
  intro l
  induction l with
  | nil => intro i evs j h1 h2; left; rfl
  | cons ev rest ih =>
    intro i evs j h1 h2
    simp only [applyEvOutcomes] at h2 ⊢
    have hlen : j < (stepEvents now ev (llm i) (wf i) evs).length := by
      rw [stepEvents_eq_map, List.length_map]
      exact h1
    rcases ih (i + 1) (stepEvents now ev (llm i) (wf i) evs) j hlen h2 with
      heq | hmid | hf
    · have hq : (stepEvents now ev (llm i) (wf i) evs).get? j =
          some (if ((evs.get ⟨j, h1⟩).id == ev.id) = true then
            updFor now ev (llm i) (wf i) (evs.get ⟨j, h1⟩)
          else evs.get ⟨j, h1⟩) := by
        rw [stepEvents_eq_map]
        have hm : j < (evs.map (fun e => if e.id == ev.id then
            updFor now ev (llm i) (wf i) e else e)).length := by
          rw [List.length_map]
          exact h1
        rw [List.get?_eq_get hm]
        simp [List.get_eq_getElem, List.getElem_map]
      have hq2 : (stepEvents now ev (llm i) (wf i) evs).get? j =
          some ((stepEvents now ev (llm i) (wf i) evs).get ⟨j, hlen⟩) :=
        List.get?_eq_get hlen
      rw [hq] at hq2
      have hstep := Option.some_inj.mp hq2
      rw [heq, ← hstep]
      by_cases hcase : ((evs.get ⟨j, h1⟩).id == ev.id) = true
      · rw [if_pos hcase]
        by_cases hok : evOk ev (llm i) (wf i) = true
        · right; left
          unfold updFor
          rw [if_pos hok]
          exact ⟨rfl, rfl⟩
        · right; right
          unfold updFor
          rw [if_neg hok]
      · rw [if_neg hcase]
        left; rfl
    · right; left; exact hmid
    · right; right; exact hf

/-! ### Claim C10: one timestamp per batch -/

/-- C10: the renderer captures a single instant before its loop and reuses it
for every event of the batch: every newly inserted Delivery row carries
sent_at = now (so all deliveries of one batch share one timestamp), every
event newly moved from created to rendered carries rendered_at = some now,
and hence each such event's rendered_at equals the sent_at of each of its new
Delivery rows. -/
theorem render_single_timestamp (db : DB) (batch : Nat) (now : Instant)
    (llm : Nat → LLMCall) (wf : Nat → Option String) :
    (render_and_project_in_app db batch now llm wf).2.events.length =
      db.events.length ∧
    (∀ d ∈ (render_and_project_in_app db batch now llm
        wf).2.deliveries.drop db.deliveries.length, d.sent_at = now) ∧
    (∀ d1 ∈ (render_and_project_in_app db batch now llm
        wf).2.deliveries.drop db.deliveries.length,
      ∀ d2 ∈ (render_and_project_in_app db batch now llm
        wf).2.deliveries.drop db.deliveries.length,
      d1.sent_at = d2.sent_at) ∧
    (∀ (j : Nat) (e0 e1 : Event),
      db.events.get? j = some e0 →
      (render_and_project_in_app db batch now llm wf).2.events.get? j =
        some e1 →
      e0.status = "created" → e1.status = "rendered" →
      e1.rendered_at = some now ∧
      ∀ d ∈ (render_and_project_in_app db batch now llm
          wf).2.deliveries.drop db.deliveries.length,
        d.event_id = e1.id → e1.rendered_at = some d.sent_at) := by
  have hsent : ∀ d ∈ (render_and_project_in_app db batch now llm
      wf).2.deliveries.drop db.deliveries.length, d.sent_at = now := by
    intro d hd
    rw [render_newDel] at hd
    exact (delsOf_mem now llm wf _ 0 d hd).1
  refine ⟨?_, hsent, ?_, ?_⟩
  · rw [render_eq]
    exact applyEvOutcomes_length now llm wf _ 0 db.events
  · intro d1 hd1 d2 hd2
    rw [hsent d1 hd1, hsent d2 hd2]
  · intro j e0 e1 h0 h1 hcr hrd
    have hE : (render_and_project_in_app db batch now llm wf).2.events =
        applyEvOutcomes now llm wf (fetchCreated db batch) 0 db.events := by
      rw [render_eq]
    rw [hE] at h1
    obtain ⟨hb0, hg0⟩ := List.get?_eq_some.mp h0
    obtain ⟨hb1, hg1⟩ := List.get?_eq_some.mp h1
    rcases applyEvOutcomes_get_cases now llm wf (fetchCreated db batch) 0
      db.events j hb0 hb1 with heq | hmid | hf
    · rw [hg1, hg0] at heq
      rw [heq] at hrd
      rw [hcr] at hrd
      exact absurd hrd (by decide)
    · rw [hg1] at hmid
      refine ⟨hmid.2, ?_⟩
      intro d hd _
      rw [hmid.2, hsent d hd]
    · rw [hg1] at hf
      rw [hf] at hrd
      exact absurd hrd (by decide)

/-- C10 witness: the shared timestamp at a concrete successful run. -/
theorem render_single_timestamp_witness :
    ∃ e1 : Event,
      (render_and_project_in_app dbOne 10 now0 llmOkCall
        wfNone).2.events.get? 0 = some e1 ∧
      e1.rendered_at = some now0 := by
  obtain ⟨e1, he1⟩ : ∃ e1, (render_and_project_in_app dbOne 10 now0 llmOkCall
      wfNone).2.events.get? 0 = some e1 := by
    exact ⟨_, rfl⟩
  have h := (render_single_timestamp dbOne 10 now0 llmOkCall wfNone).2.2.2
    0 (sampleEvent 0 "task_deadline_reminder" "created") e1 (by decide) he1
    (by decide) (by rw [show e1 = _ from Option.some_inj.mp he1.symm]; decide)
  exact ⟨e1, he1, h.1⟩

/-! ### State-machine lemmas (scan and render as store transformers) -/

theorem applyOp_scan_eq (db : DB) (tasks : List Task) (now : Instant)
    (limit : Nat) : applyOp db (.scan tasks now limit) = db := by
  show { db with
      events := (scan_deadline_reminders tasks now limit db.events).2 } = db
  rw [scan_store_unchanged]


theorem stepEvents_ids (now : Instant) (ev : Event) (call : LLMCall)
    (w : Option String) (evs : List Event) :
    (stepEvents now ev call w evs).map (fun e => e.id) =
      evs.map (fun e => e.id) := by
  rw [stepEvents_eq_map, List.map_map]
  refine List.map_congr_left (fun e _ => ?_)
  simp only [Function.comp_apply]
  split_ifs with h
  · exact updFor_id now ev call w e
  · rfl

theorem applyEvOutcomes_ids (now : Instant) (llm : Nat → LLMCall)
    (wf : Nat → Option String) :
    ∀ (l : List Event) (i : Nat) (evs : List Event),
      (applyEvOutcomes now llm wf l i evs).map (fun e => e.id) =
        evs.map (fun e => e.id) := by
  intro l
  induction l with
  | nil => intro i evs; rfl
  | cons ev rest ih =>
    intro i evs
    rw [applyEvOutcomes, ih, stepEvents_ids]

theorem render_ids_nodup (db : DB) (batch : Nat) (now : Instant)
    (llm : Nat → LLMCall) (wf : Nat → Option String)
    (h : idsNodup db.events) :
    idsNodup (render_and_project_in_app db batch now llm wf).2.events := by
  rw [render_eq]
  unfold idsNodup at *
  rw [applyEvOutcomes_ids]
  exact h

theorem render_status_total (db : DB) (batch : Nat) (now : Instant)
    (llm : Nat → LLMCall) (wf : Nat → Option String)
    (hids : idsNodup db.events) (id : Nat) (s : String)
    (h : eventStatus db id = some s) :
    ∃ s', eventStatus (render_and_project_in_app db batch now llm wf).2 id =
        some s' ∧
      (s' = s ∨ (s = "created" ∧ (s' = "rendered" ∨ s' = "failed"))) := by
  by_cases hin : ∃ (j : Nat) (hj : j < (fetchCreated db batch).length),
      ((fetchCreated db batch).get ⟨j, hj⟩).id = id
  · obtain ⟨j, hj, hid⟩ := hin
    have hs : s = "created" := by
      unfold eventStatus statusIn at h
      cases hf : db.events.find? (fun e => e.id == id) with
      | none => rw [hf] at h; exact absurd h (by simp)
      | some e =>
        rw [hf] at h
        have he_mem : e ∈ db.events := List.mem_of_find?_eq_some hf
        have he_id : e.id = id := by simpa using List.find?_some hf
        have hfj := fetchCreated_subset db batch _ (List.get_mem _ j hj)
        have : e = (fetchCreated db batch).get ⟨j, hj⟩ := by
          refine List.inj_on_of_nodup_map hids he_mem hfj.1 ?_
          rw [he_id, hid]
        rw [this] at h
        have h' : ((fetchCreated db batch).get ⟨j, hj⟩).status = s :=
          Option.some_inj.mp h
        rw [← h']
        exact hfj.2
    have hst := render_event_status db batch now llm wf hids j hj
    rw [hid] at hst
    refine ⟨_, hst, Or.inr ⟨hs, ?_⟩⟩
    split_ifs
    · exact Or.inl rfl
    · exact Or.inr rfl
  · have hnot : ∀ ev ∈ fetchCreated db batch, ev.id ≠ id := by
      intro ev hev heq
      obtain ⟨⟨j, hj⟩, hget⟩ := List.mem_iff_get.mp hev
      exact hin ⟨j, hj, by rw [hget]; exact heq⟩
    refine ⟨s, ?_, Or.inl rfl⟩
    unfold eventStatus statusIn at h ⊢
    rw [render_eq]
    rw [show ((okCount llm wf (fetchCreated db batch) 0,
        (⟨applyEvOutcomes now llm wf (fetchCreated db batch) 0 db.events,
         db.deliveries ++ delsOf now llm wf (fetchCreated db batch) 0,
         db.messages ++ msgsOf now llm wf (fetchCreated db batch) 0⟩ : DB)) :
           Nat × DB).2.events =
      applyEvOutcomes now llm wf (fetchCreated db batch) 0 db.events from rfl]
    rw [find?_applyEvOutcomes_not_mem now llm wf _ 0 db.events id hnot]
    exact h

theorem applyOp_ids_nodup (db : DB) (o : Op) (h : idsNodup db.events) :
    idsNodup (applyOp db o).events := by
  cases o with
  | scan tasks now limit => rw [applyOp_scan_eq]; exact h
  | render batch now llm wf => exact render_ids_nodup db batch now llm wf h

theorem applyOp_status_total (db : DB) (o : Op) (id : Nat) (s : String)
    (hids : idsNodup db.events) (h : eventStatus db id = some s) :
    ∃ s', eventStatus (applyOp db o) id = some s' ∧
      (s' = s ∨ (s = "created" ∧ (s' = "rendered" ∨ s' = "failed"))) := by
  cases o with
  | scan tasks now limit =>
    rw [applyOp_scan_eq]
    exact ⟨s, h, Or.inl rfl⟩
  | render batch now llm wf =>
    exact render_status_total db batch now llm wf hids id s h

theorem applyOps_status_total (ops : List Op) :
    ∀ (db : DB) (id : Nat) (s : String), idsNodup db.events →
      eventStatus db id = some s →
      ∃ s', eventStatus (applyOps db ops) id = some s' ∧
        (s' = s ∨ (s = "created" ∧ (s' = "rendered" ∨ s' = "failed"))) := by
  induction ops with
  | nil => intro db id s _ h; exact ⟨s, h, Or.inl rfl⟩
  | cons o rest ih =>
    intro db id s hids h
    obtain ⟨s1, h1, rel1⟩ := applyOp_status_total db o id s hids h
    obtain ⟨s', h', rel2⟩ := ih (applyOp db o) id s1
      (applyOp_ids_nodup db o hids) h1
    refine ⟨s', h', ?_⟩
    rcases rel1 with rfl | ⟨hcr, hterm⟩
    · exact rel2
    · rcases rel2 with rfl | ⟨hcr1, _⟩
      · exact Or.inr ⟨hcr, hterm⟩
      · rcases hterm with hterm | hterm <;> rw [hterm] at hcr1 <;>
          exact absurd hcr1 (by decide)

/-! ### Claim C9: terminal monotonicity of the event state machine -/

/-- C9: under every sequence of scan and render invocations, an event whose
status is rendered or failed never changes again (in particular never reverts
to created), and any status change at all moves a created event to rendered
or failed — render selects and updates only status=created rows and scan only
inserts new rows. -/
theorem event_status_terminal_monotone (ops : List Op) (db : DB) (id : Nat)
    (s₀ s₁ : String) (hids : idsNodup db.events)
    (h0 : eventStatus db id = some s₀)
    (h1 : eventStatus (applyOps db ops) id = some s₁) :
    (s₀ = "rendered" ∨ s₀ = "failed" → s₁ = s₀) ∧
    (s₁ ≠ s₀ → s₀ = "created" ∧ (s₁ = "rendered" ∨ s₁ = "failed")) := by
  obtain ⟨s', h', rel⟩ := applyOps_status_total ops db id s₀ hids h0
  have hs : s' = s₁ := by
    rw [h'] at h1
    exact Option.some_inj.mp h1
  subst hs
  rcases rel with rfl | ⟨hcr, hterm⟩
  · exact ⟨fun _ => rfl, fun hne => absurd rfl hne⟩
  · subst hcr
    refine ⟨?_, fun _ => ⟨rfl, hterm⟩⟩
    rintro (h | h) <;> exact absurd h (by decide)

/-- C9 witness: a concrete render run moves a created event to rendered, and
the theorem classifies the change as created → rendered. -/
theorem event_status_terminal_monotone_witness :
    eventStatus (applyOps dbOne [Op.render 10 now0 llmOkCall wfNone]) 0 =
      some "rendered" ∧
    ("created" = "created" ∧
      (("rendered" : String) = "rendered" ∨ ("rendered" : String) =
        "failed")) := by
  have h := event_status_terminal_monotone [Op.render 10 now0 llmOkCall
    wfNone] dbOne 0 "created" "rendered" (by decide) (by decide) (by decide)
  exact ⟨by decide, h.2 (by decide)⟩

/-! ### Invariant lemmas: deadline (task, stage) uniqueness -/

theorem unique_map_update (evs : List Event) (id : Nat) (f : Event → Event)
    (hf : ∀ e, (f e).kind = e.kind ∧ (f e).task_id = e.task_id ∧
      (f e).stage = e.stage)
    (h : uniqueDeadlineTaskStage evs) :
    uniqueDeadlineTaskStage
      (evs.map (fun e => if e.id == id then f e else e)) := by
  unfold uniqueDeadlineTaskStage at *
  rw [List.pairwise_map]
  refine h.imp ?_
  intro a b hab hcl
  apply hab
  have hfa : ∀ e : Event, ((if e.id == id then f e else e)).kind = e.kind ∧
      ((if e.id == id then f e else e)).task_id = e.task_id ∧
      ((if e.id == id then f e else e)).stage = e.stage := by
    intro e
    split_ifs
    · exact hf e
    · exact ⟨rfl, rfl, rfl⟩
  obtain ⟨ka, ta, sa⟩ := hfa a
  obtain ⟨kb, tb, sb⟩ := hfa b
  unfold deadlinePairClash at hcl ⊢
  rw [ka, kb, ta, tb, sa, sb] at hcl
  exact hcl

theorem unique_insertAttempt (store : List Event) (e : Event)
    (h : uniqueDeadlineTaskStage store) :
    uniqueDeadlineTaskStage (applyInsertAttempt store e) := by
  unfold applyInsertAttempt insertEventRow
  split_ifs with hv
  · exact h
  · unfold uniqueDeadlineTaskStage at *
    rw [List.pairwise_append]
    refine ⟨h, List.pairwise_singleton _ _, ?_⟩
    intro a ha b hb hcl
    rw [List.mem_singleton] at hb
    subst hb
    apply hv
    unfold deadlinePairClash at hcl
    obtain ⟨hka, hke, hta, hsa, htid, hstg⟩ := hcl
    simp only [violatesTaskStageIndex, deadlineIndexRow, Bool.and_eq_true,
      beq_iff_eq, List.any_eq_true, Option.isSome_iff_ne_none, and_assoc]
    exact ⟨hke, htid ▸ hta, hstg ▸ hsa, a, ha, hka, hta, hsa, htid, hstg⟩

theorem unique_stepEvents (now : Instant) (ev : Event) (call : LLMCall)
    (w : Option String) (evs : List Event)
    (h : uniqueDeadlineTaskStage evs) :
    uniqueDeadlineTaskStage (stepEvents now ev call w evs) := by
  rw [stepEvents_eq_map]
  exact unique_map_update evs ev.id _ (updFor_fields now ev call w) h

theorem unique_applyEvOutcomes (now : Instant) (llm : Nat → LLMCall)
    (wf : Nat → Option String) :
    ∀ (l : List Event) (i : Nat) (evs : List Event),
      uniqueDeadlineTaskStage evs →
      uniqueDeadlineTaskStage (applyEvOutcomes now llm wf l i evs) := by
  intro l
  induction l with
  | nil => intro i evs h; exact h
  | cons ev rest ih =>
    intro i evs h
    rw [applyEvOutcomes]
    exact ih _ _ (unique_stepEvents now ev (llm i) (wf i) evs h)

theorem unique_render (db : DB) (batch : Nat) (now : Instant)
    (llm : Nat → LLMCall) (wf : Nat → Option String)
    (h : uniqueDeadlineTaskStage db.events) :
    uniqueDeadlineTaskStage
      (render_and_project_in_app db batch now llm wf).2.events := by
  rw [render_eq]
  exact unique_applyEvOutcomes now llm wf _ 0 db.events h

/-! ### Claim C2: the storage-layer uniqueness invariant -/

/-- C2: among events of kind task_deadline_reminder with non-null task
reference and stage, the (task_id, stage) pair is unique — the predicate is
the partial unique index ix_notification_events_task_stage_unique of the
migration.  The invariant is preserved by every sequence of scan and render
invocations (a scan either raises 42P10 before any row is written or is a
pure no-op, so the store is unchanged; render never touches the key
columns), and — because the index itself rejects any violating row at the
storage layer, regardless of the application logic issuing the INSERT — by
every interleaving of raw row-insert attempts from racing writers. -/
theorem deadline_pair_unique_invariant :
    (∀ (db : DB) (ops : List Op), uniqueDeadlineTaskStage db.events →
      uniqueDeadlineTaskStage (applyOps db ops).events) ∧
    (∀ (store rows : List Event),
      uniqueDeadlineTaskStage store →
      uniqueDeadlineTaskStage (rows.foldl applyInsertAttempt store)) := by
  constructor
  · intro db ops
    induction ops generalizing db with
    | nil => intro h; exact h
    | cons o rest ih =>
      intro h
      rw [applyOps]
      refine ih (applyOp db o) ?_
      cases o with
      | scan tasks now limit => rw [applyOp_scan_eq]; exact h
      | render batch now llm wf => exact unique_render db batch now llm wf h
  · intro store rows
    induction rows generalizing store with
    | nil => intro h; exact h
    | cons r rest ih =>
      intro h
      rw [List.foldl_cons]
      exact ih _ (unique_insertAttempt store r h)

/-- C2 witness: two racing insert attempts for the same (task, stage) pair
against an empty store leave the invariant intact — the index admits the
first row and rejects the second as a unique violation, so a single row
remains. -/
theorem deadline_pair_unique_invariant_witness :
    uniqueDeadlineTaskStage
      ([raceRowA, raceRowB].foldl applyInsertAttempt []) ∧
    ([raceRowA, raceRowB].foldl applyInsertAttempt []).length = 1 := by
  refine ⟨deadline_pair_unique_invariant.2 [] _ ?_, by decide⟩
  unfold uniqueDeadlineTaskStage
  exact List.Pairwise.nil

end MOS
